import Mathlib

/-!
# Verification of the `@whizzes/svelte-forms` form-state container

This development embeds the form state container of `src/index.ts`, the
shallow clone helper of `src/utils.ts` and the input value coercion helper
(`getInputValue`) into Lean, and proves properties of the embedding.

Two complementary embeddings are used:

* a value-level embedding (`Value`, `FormState`, `handleSubmit`, ...), in
  which JavaScript objects are immutable association lists.  All store
  updates in the source replace whole objects (`{...current, [k]: v}`), so
  this level is adequate for every property that does not depend on
  reference identity;
* a small heap embedding (`Heap`, `cloneFields`, `newFormH`, `resetH`),
  in which objects live at addresses and field values may be references.
  It is used for the claims about copying versus aliasing, where the
  one-level-deep behaviour of `clone` and the alias taken by `reset`
  (`values.set(get(__initialValues))`) are observable.
-/

/-- JavaScript runtime values, as far as the library manipulates them.
`vNaN` stands for the not-a-number result of numeric coercion. -/
inductive Value where
  | vUndefined
  | vNull
  | vNaN
  | vBool (b : Bool)
  | vNum (n : Int)
  | vStr (s : String)
  | vArr (xs : List Value)
  | vObj (fs : List (String × Value))

/-- A JavaScript object at the value level: an insertion-ordered
association list from property names to values. -/
abbrev Obj := List (String × Value)

/-- Property names of an object, in insertion order. -/
def keysOf (o : Obj) : List String :=
  o.map Prod.fst

/-- Property lookup (first binding wins, as in a well-formed JS object). -/
def lookupObj (o : Obj) (k : String) : Option Value :=
  match o with
  | [] => none
  | (k', v) :: rest => if k' = k then some v else lookupObj rest k

/-- Whether the object has the property (`k in o`). -/
def hasKey (o : Obj) (k : String) : Bool :=
  match o with
  | [] => false
  | (k', _) :: rest => k' = k || hasKey rest k

/-- Replace the value of every binding of `k` in place. -/
def setKeyGo (o : Obj) (k : String) (v : Value) : Obj :=
  match o with
  | [] => []
  | (k', v') :: rest =>
    if k' = k then (k', v) :: setKeyGo rest k v
    else (k', v') :: setKeyGo rest k v

/-- The spread update `{...o, [k]: v}`: an existing key keeps its position
and receives the new value, a fresh key is appended at the end. -/
def setKey (o : Obj) (k : String) (v : Value) : Obj :=
  if hasKey o k then setKeyGo o k v
  else o ++ [(k, v)]

/-- Property access `v.k` as the library uses it: `undefined` on missing
keys and on non-objects (the call sites never access properties of
`null`/`undefined` without optional chaining). -/
def getProp (v : Value) (k : String) : Value :=
  match v with
  | .vObj fs => (lookupObj fs k).getD .vUndefined
  | _ => .vUndefined

/-- JavaScript truthiness. -/
def truthy (v : Value) : Bool :=
  match v with
  | .vUndefined => false
  | .vNull => false
  | .vNaN => false
  | .vBool b => b
  | .vNum n => n != 0
  | .vStr s => s ≠ ""
  | .vArr _ => true
  | .vObj _ => true

/-- JavaScript `ToString` on the values the library feeds into computed
property keys (strings in every intended use; arrays are approximated). -/
def jsToString (v : Value) : String :=
  match v with
  | .vStr s => s
  | .vNum n => toString n
  | .vNaN => "NaN"
  | .vBool b => toString b
  | .vNull => "null"
  | .vUndefined => "undefined"
  | .vArr _ => ""
  | .vObj _ => "[object Object]"

/-- `src/utils.ts` `clone(obj)` without a default value, at the value
level: arrays are rebuilt with `[...a]`, plain objects with `{...o}`, all
other values are passed through.  At this level the copies are equal to
the originals; the sharing behaviour lives in the heap embedding below. -/
def cloneObj (o : Obj) : Obj :=
  o.map (fun kv =>
    match kv.2 with
    | .vArr xs => (kv.1, Value.vArr xs)
    | .vObj fs => (kv.1, Value.vObj fs)
    | v => (kv.1, v))

/-- `src/utils.ts` `clone(obj, defaultValue)` with a non-`undefined`
default: every key of `obj` is mapped to the default. -/
def cloneDefault (o : Obj) (d : Value) : Obj :=
  o.map (fun kv => (kv.1, d))

/-! ## The form state container (value level)

The five pieces of observable state of `newForm` (`src/index.ts`): the
current values, the initial-values snapshot, the error map, the touched
map and the two lifecycle flags. -/

structure FormState where
  initialValues : Obj
  values : Obj
  errors : Obj
  touched : Obj
  isSubmitting : Bool
  isValidating : Bool

/-- One call into the `onSubmit` helpers (`setFieldError` /
`setFieldValue`) that the submit callback performs. -/
inductive HelperCall where
  | callSetFieldError (f : String) (m : Value)
  | callSetFieldValue (f : String) (v : Value) (sv : Bool)

/-- Behaviour of the user-supplied `onSubmit` callback: given the values
it receives, the helper calls it performs and the exception it throws
(if any), in that order. -/
structure OnSubmitSpec where
  script : Obj → List HelperCall
  throws : Obj → Option Value

/-- Result of a single-field validation call of the external schema
(`validateAt` / `validateSyncAt`): success, or a thrown value. -/
inductive FieldVR where
  | ok
  | thrown (e : Value)

/-- Result of the whole-object validation call `validate(values,
{abortEarly: false})`: success, or a thrown value (the thrown value's
`inner` property is inspected by `handleSubmit`). -/
inductive AllVR where
  | ok
  | thrown (e : Value)

/-- The external validation schema capability, modelled by its observable
behaviour on the three calls the library makes. -/
structure SchemaB where
  validateAll : Obj → AllVR
  validateAt : String → Obj → FieldVR
  validateSyncAt : String → Obj → FieldVR

/-- The `FormConfig` object handed to `newForm`.  `initialValues` is kept
as a raw `Value` because `newForm` only checks its truthiness before
using it. -/
structure FormConfig where
  initialValues : Value
  onSubmit : Option OnSubmitSpec
  validationSchema : Option SchemaB
  validateOnBlur : Bool := false
  validateOnChange : Bool := false
  validateOnFocus : Bool := false
  validateOnInput : Bool := false

/-- The object fields of `initialValues` (empty for non-objects, matching
`Object.keys` on numbers and booleans). -/
def objFields (v : Value) : Obj :=
  match v with
  | .vObj fs => fs
  | _ => []

/-- `setFieldError(field, message)`: spread-update of the error map.  The
message is kept as a raw `Value` because the code passes `null` from
`validateField` and `undefined` when the argument is omitted. -/
def setFieldError (st : FormState) (f : String) (m : Value) : FormState :=
  { st with errors := setKey st.errors f m }

/-- `setFieldTouched(field, value)`: throws a `TypeError` unless the value
is a boolean, otherwise spread-updates the touched map. -/
def setFieldTouched (st : FormState) (f : String) (v : Value) :
    Except String FormState :=
  match v with
  | .vBool b => .ok { st with touched := setKey st.touched f (.vBool b) }
  | _ => .error "Expected a boolean value for setFieldTouched."

/-- `setInitialValues(initialValues)`: replaces the initial-values
snapshot with a clone; nothing else changes. -/
def setInitialValues (st : FormState) (j : Obj) : FormState :=
  { st with initialValues := cloneObj j }

/-- `clearErrors()`: reseeds the error map from the current
initial-values key set, every entry `null`. -/
def clearErrors (st : FormState) : FormState :=
  { st with errors := cloneDefault st.initialValues .vNull }

/-- `reset()`: `values.set(get(__initialValues))`.  At the value level
this copies the entries; the fact that the source aliases the object is
treated in the heap embedding. -/
def reset (st : FormState) : FormState :=
  { st with values := st.initialValues }

/-- The `TypeError` object produced by the runtime (e.g. when a property
of `undefined` is accessed or `in` is applied to a primitive).  It has no
`path` property and no `errors` array. -/
def typeErrorValue : Value :=
  .vObj [("name", .vStr "TypeError"), ("message", .vStr "runtime TypeError")]

/-- Result of a call that may update the state, log to the console, or
throw. -/
structure CatchResult where
  state : FormState
  logged : Bool
  thrown : Option Value

/-- `setYupValidationErrors(error)`: if the thrown value is an object
with a `path` property and an `errors` array, set the field error at
`error.path` to `error.errors[0]`; if it is an object lacking that shape,
log and do nothing; if it is a primitive (or `null`/`undefined`), the
`'path' in error` test itself throws a `TypeError`. -/
def setYupValidationErrors (st : FormState) (e : Value) : CatchResult :=
  match e with
  | .vObj fs =>
    if hasKey fs "path" then
      match lookupObj fs "errors" with
      | some (.vArr msgs) =>
        { state := setFieldError st (jsToString (getProp e "path"))
            (msgs.headD .vUndefined)
          logged := false, thrown := none }
      | _ => { state := st, logged := true, thrown := none }
    else
      { state := st, logged := true, thrown := none }
  | .vArr _ => { state := st, logged := true, thrown := none }
  | _ => { state := st, logged := false, thrown := some typeErrorValue }

/-- `validateField(field)` (async): validate the single field against the
current values; on success clear the field error with `null`; on any
throw delegate to `setYupValidationErrors`.  A missing
`validationSchema` makes `config.validationSchema.validateAt` throw a
`TypeError`, which the same `catch` swallows. -/
def validateField (cfg : FormConfig) (st : FormState) (f : String) :
    CatchResult :=
  match cfg.validationSchema with
  | none => setYupValidationErrors st typeErrorValue
  | some schema =>
    match schema.validateAt f st.values with
    | .ok => { state := setFieldError st f .vNull, logged := false, thrown := none }
    | .thrown e => setYupValidationErrors st e

/-- `validateFieldSync(field)`: synchronous counterpart; on success the
field error is spread-updated to `undefined`. -/
def validateFieldSync (cfg : FormConfig) (st : FormState) (f : String) :
    CatchResult :=
  match cfg.validationSchema with
  | none => setYupValidationErrors st typeErrorValue
  | some schema =>
    match schema.validateSyncAt f st.values with
    | .ok =>
      { state := { st with errors := setKey st.errors f .vUndefined }
        logged := false, thrown := none }
    | .thrown e => setYupValidationErrors st e

/-- `setFieldValue(field, value, shouldValidateField)`: spread-update the
values, then, when requested and a schema is configured, run the
synchronous single-field validation (whose exceptions propagate). -/
def setFieldValue (cfg : FormConfig) (st : FormState) (f : String)
    (v : Value) (sv : Bool) : CatchResult :=
  let st1 := { st with values := setKey st.values f v }
  if sv && cfg.validationSchema.isSome then
    validateFieldSync cfg st1 f
  else
    { state := st1, logged := false, thrown := none }

/-- The fresh container state built by `newForm` once its configuration
checks have passed: the initial values are cloned, errors are seeded with
`null`, touched with `false`, and the values store starts as a spread of
the initial-values snapshot. -/
def newFormState (i : Obj) : FormState :=
  let init := cloneObj i
  { initialValues := init
    values := init
    errors := cloneDefault init .vNull
    touched := cloneDefault init (.vBool false)
    isSubmitting := false
    isValidating := false }

/-- `newForm(config)`: throws a `TypeError` when the configuration is
absent or its `initialValues` is falsy; otherwise builds the container. -/
def newForm (config : Option FormConfig) : Except String FormState :=
  match config with
  | none => .error "You must provide a config to newForm."
  | some cfg =>
    if truthy cfg.initialValues then
      .ok (newFormState (objFields cfg.initialValues))
    else
      .error "You must specify initialValues with an object to FormConfig."

/-! ## Heap embedding for sharing and aliasing

`clone` copies only one level deep (`[...a]` / `{...o}`), and `reset`
passes the initial-values object itself into `values.set`.  These facts
are invisible at the value level, so objects are re-embedded here with
explicit addresses. -/

/-- Primitive heap values (numbers, strings, ... — their identity is
irrelevant, so a string representation suffices). -/
abbrev JPrim := String

/-- A field value in the heap: a primitive, or a reference to a cell. -/
inductive JVal where
  | jprim (p : JPrim)
  | jref (a : Nat)
deriving DecidableEq

/-- A heap cell: a plain object or an array. -/
inductive Cell where
  | oCell (fs : List (String × JVal))
  | aCell (es : List JVal)
deriving DecidableEq

/-- The heap: cells indexed by address; allocation appends. -/
abbrev Heap := List Cell

/-- Field lookup inside a cell. -/
def lookupJ (fs : List (String × JVal)) (k : String) : Option JVal :=
  match fs with
  | [] => none
  | (k', v) :: rest => if k' = k then some v else lookupJ rest k

/-- In-place property write `obj[k] = v`: an existing key keeps its slot,
a fresh key is appended. -/
def setKeyJ (fs : List (String × JVal)) (k : String) (v : JVal) :
    List (String × JVal) :=
  if (lookupJ fs k).isSome then
    fs.map (fun kv => if kv.1 = k then (kv.1, v) else kv)
  else
    fs ++ [(k, v)]

/-- The fields of the object at address `a` (empty when the address does
not hold a plain object). -/
def fieldsAt (h : Heap) (a : Nat) : List (String × JVal) :=
  match h[a]? with
  | some (.oCell fs) => fs
  | _ => []

/-- The field-copy loop of `clone(obj)` (`src/utils.ts`, no default
value): an array-valued field is replaced by a reference to a fresh
one-level copy `[...a]`, an object-valued field by a fresh `{...o}`, and
every other field is carried over unchanged.  Returns the grown heap and
the copied field list. -/
def cloneFields (h : Heap) (fs : List (String × JVal)) :
    Heap × List (String × JVal) :=
  match fs with
  | [] => (h, [])
  | (k, v) :: rest =>
    match v with
    | .jprim p =>
      ((cloneFields h rest).1, (k, .jprim p) :: (cloneFields h rest).2)
    | .jref b =>
      match h[b]? with
      | some (.aCell es) =>
        ((cloneFields (h ++ [.aCell es]) rest).1,
          (k, .jref h.length) :: (cloneFields (h ++ [.aCell es]) rest).2)
      | some (.oCell gs) =>
        ((cloneFields (h ++ [.oCell gs]) rest).1,
          (k, .jref h.length) :: (cloneFields (h ++ [.oCell gs]) rest).2)
      | none =>
        ((cloneFields h rest).1, (k, .jref b) :: (cloneFields h rest).2)

/-- The two store cells `newForm` builds that hold object references:
`__initialValues` holds `clone(config.initialValues)` and `values` holds
the spread `{...get(__initialValues)}` — a fresh object whose field
values (including the references to the one-level copies) are shared
with the clone. -/
structure FormH where
  heap : Heap
  initAddr : Nat
  valsAddr : Nat

/-- Heap-level `newForm` for an initial-values object at address `a`:
clone it, then spread the clone into the values cell. -/
def newFormH (h : Heap) (a : Nat) : FormH :=
  let (h1, fsClone) := cloneFields h (fieldsAt h a)
  let initAddr := h1.length
  let h2 := h1 ++ [Cell.oCell fsClone]
  let valsAddr := h2.length
  let h3 := h2 ++ [Cell.oCell fsClone]
  { heap := h3, initAddr := initAddr, valsAddr := valsAddr }

/-- Heap-level `reset()`: `values.set(get(__initialValues))` stores the
initial-values object itself — the same address — into the values
store. -/
def resetH (fm : FormH) : FormH :=
  { fm with valsAddr := fm.initAddr }

/-- In-place mutation of one property of the object at address `a`. -/
def setFieldAt (h : Heap) (a : Nat) (k : String) (v : JVal) : Heap :=
  match h[a]? with
  | some (.oCell fs) => h.set a (.oCell (setKeyJ fs k v))
  | _ => h

/-- Observation: follow a path of property names (numeric strings index
arrays) from a value, returning the primitive it ends at. -/
def readPath (h : Heap) (v : JVal) : List String → Option JPrim
  | [] =>
    match v with
    | .jprim p => some p
    | .jref _ => none
  | k :: rest =>
    match v with
    | .jprim _ => none
    | .jref a =>
      match h[a]? with
      | some (.oCell fs) =>
        match lookupJ fs k with
        | some v' => readPath h v' rest
        | none => none
      | some (.aCell es) =>
        match k.toNat? with
        | some i =>
          match es[i]? with
          | some v' => readPath h v' rest
          | none => none
        | none => none
      | none => none

/-- Observation of one field of a field list: look the key up and follow
the remaining path in the given heap. -/
def readField (h : Heap) (fs : List (String × JVal)) (k : String)
    (rest : List String) : Option JPrim :=
  match lookupJ fs k with
  | some v => readPath h v rest
  | none => none

/-- A value whose references stay below `n`. -/
def jvalBounded (n : Nat) (v : JVal) : Bool :=
  match v with
  | .jprim _ => true
  | .jref a => a < n

/-- A cell whose references stay below `n`. -/
def cellBounded (n : Nat) (c : Cell) : Bool :=
  match c with
  | .oCell fs => fs.all (fun kv => jvalBounded n kv.2)
  | .aCell es => es.all (jvalBounded n)

/-- A closed heap: every reference in every cell is a valid address. -/
def heapClosedB (h : Heap) : Bool :=
  h.all (cellBounded h.length)

/-! ## Input value coercion and the DOM event handlers -/

/-- A selected file as exposed to `getInputValue`'s callers: name, size
and MIME type. -/
structure FileDesc where
  name : String
  size : Nat
  ftype : String
deriving DecidableEq

/-- The slice of an `HTMLInputElement` the handlers read: its `name`,
`type`, raw `value` and the selected `files`. -/
structure InputEl where
  name : String
  type : String
  value : Value
  files : List FileDesc := []

/-- JavaScript unary `+` on the raw input value, as used by
`getInputValue` for `number`/`range` inputs. -/
def jsPlus (v : Value) : Value :=
  match v with
  | .vNum n => .vNum n
  | .vNaN => .vNaN
  | .vBool b => .vNum (if b then 1 else 0)
  | .vNull => .vNum 0
  | .vUndefined => .vNaN
  | .vStr s => match s.toInt? with
    | some n => .vNum n
    | none => .vNaN
  | .vArr _ => .vNaN
  | .vObj _ => .vNaN

/-- `getInputValue(inputElement)` (`src/index.ts`): `number` and `range`
inputs are coerced with unary `+`; every other type — including `file` —
falls through to returning `inputElement.value` as is. -/
def getInputValue (el : InputEl) : Value :=
  if el.type = "number" ∨ el.type = "range" then
    jsPlus el.value
  else
    el.value

/-- `Modelled from the spec:` the value-coercion helper the specification
and the repository's own test suite describe, with the `file` branch that
is missing from `src/index.ts`: a `file` input yields the ordered list of
selected file descriptors. -/
def getInputValueSpec (el : InputEl) : Value ⊕ List FileDesc :=
  if el.type = "number" ∨ el.type = "range" then
    .inl (jsPlus el.value)
  else if el.type = "file" then
    .inr el.files
  else
    .inl el.value

/-- `handleBlur(event)`: mark the target field touched (always with
`true`, a boolean, so the `TypeError` guard cannot fire) and, when
`validateOnBlur` is set, fire the asynchronous single-field validation.
The validation is not awaited; a rejection of it never reaches the
caller, so only its state effect is kept. -/
def handleBlur (cfg : FormConfig) (st : FormState) (el : InputEl) :
    FormState :=
  let st1 :=
    match setFieldTouched st el.name (.vBool true) with
    | .ok st' => st'
    | .error _ => st
  if cfg.validateOnBlur then (validateField cfg st1 el.name).state else st1

/-- `handleFocus(event)`: identical shape to `handleBlur`, gated by
`validateOnFocus`. -/
def handleFocus (cfg : FormConfig) (st : FormState) (el : InputEl) :
    FormState :=
  let st1 :=
    match setFieldTouched st el.name (.vBool true) with
    | .ok st' => st'
    | .error _ => st
  if cfg.validateOnFocus then (validateField cfg st1 el.name).state else st1

/-- `handleChange(event)`: coerce the raw input value and delegate to
`setFieldValue` with `validateOnChange` as the validation flag. -/
def handleChange (cfg : FormConfig) (st : FormState) (el : InputEl) :
    CatchResult :=
  setFieldValue cfg st el.name (getInputValue el) cfg.validateOnChange

/-- `handleInput(event)`: same as `handleChange`, gated by
`validateOnInput`. -/
def handleInput (cfg : FormConfig) (st : FormState) (el : InputEl) :
    CatchResult :=
  setFieldValue cfg st el.name (getInputValue el) cfg.validateOnInput

/-! ## The submit state machine -/

/-- The capabilities a (possibly partial or mock) event object offers to
`handleSubmit`. -/
structure EventCaps where
  hasPreventDefault : Bool
  hasStopPropagation : Bool

/-- Externally visible actions of one `handleSubmit` run, in order. -/
inductive TraceEv where
  | preventDefault
  | stopPropagation
  | validateCall (values : Obj)
  | submitCall (values : Obj)

/-- Whether a trace event is the invocation of `onSubmit`. -/
def TraceEv.isSubmitCall : TraceEv → Bool
  | .submitCall _ => true
  | _ => false

/-- Whether a trace event is the whole-object validation call. -/
def TraceEv.isValidateCall : TraceEv → Bool
  | .validateCall _ => true
  | _ => false

/-- Result of a `handleSubmit` run: final state, action trace, and the
exception the returned promise rejects with, if any. -/
structure SubmitResult where
  state : FormState
  trace : List TraceEv
  thrown : Option Value

/-- The `reduce` in `handleSubmit`'s catch block:
`error.inner.reduce((acc, {message, path}) => ({...acc, [path]: message}), {})`.
Destructuring a `null`/`undefined` element throws a `TypeError`; any
other element contributes `path → message` by spread overwrite. -/
def accumulateInner (l : List Value) (acc : Obj) : Except Value Obj :=
  match l with
  | [] => .ok acc
  | e :: rest =>
    match e with
    | .vNull => .error typeErrorValue
    | .vUndefined => .error typeErrorValue
    | _ =>
      accumulateInner rest
        (setKey acc (jsToString (getProp e "path")) (getProp e "message"))

/-- Run the `onSubmit` callback: apply its helper calls in order (a
helper call may itself throw, through `setFieldValue`'s synchronous
validation), then raise the exception the callback ends with, if any. -/
def runHelpers (cfg : FormConfig) (st : FormState) :
    List HelperCall → Except (Value × FormState) FormState
  | [] => .ok st
  | c :: rest =>
    match c with
    | .callSetFieldError f m => runHelpers cfg (setFieldError st f m) rest
    | .callSetFieldValue f v sv =>
      let r := setFieldValue cfg st f v sv
      match r.thrown with
      | some e => .error (e, r.state)
      | none => runHelpers cfg r.state rest

/-- The part of `handleSubmit` after the guards and the state flips: the
optional whole-object validation, the error accumulation on failure, and
the `onSubmit` invocation.  `env` is the interference of the
single-threaded event loop at the `await` of the validation call (other
handlers may run there); the validation itself is applied to the
snapshot taken before it. -/
def submitCore (cfg : FormConfig) (spec : OnSubmitSpec)
    (env : FormState → FormState) (currentValues : Obj) (st : FormState) :
    SubmitResult :=
  match cfg.validationSchema with
  | some schema =>
    let st1 := { st with isValidating := true }
    let res := schema.validateAll currentValues
    let stMid := env st1
    match res with
    | .ok =>
      let st2 := { stMid with isValidating := false }
      match runHelpers cfg st2 (spec.script currentValues) with
      | .error em =>
        { state := em.2
          trace := [.validateCall currentValues, .submitCall currentValues]
          thrown := some em.1 }
      | .ok st3 =>
        { state := st3
          trace := [.validateCall currentValues, .submitCall currentValues]
          thrown := spec.throws currentValues }
    | .thrown e =>
      if truthy (getProp e "inner") then
        match getProp e "inner" with
        | .vArr l =>
          match accumulateInner l [] with
          | .ok errMap =>
            { state := { stMid with errors := errMap, isValidating := false }
              trace := [.validateCall currentValues]
              thrown := none }
          | .error te =>
            { state := { stMid with isValidating := false }
              trace := [.validateCall currentValues]
              thrown := some te }
        | _ =>
          { state := { stMid with isValidating := false }
            trace := [.validateCall currentValues]
            thrown := some typeErrorValue }
      else
        { state := { stMid with isValidating := false }
          trace := [.validateCall currentValues]
          thrown := some e }
  | none =>
    match runHelpers cfg st (spec.script currentValues) with
    | .error em =>
      { state := em.2, trace := [.submitCall currentValues], thrown := some em.1 }
    | .ok st3 =>
      { state := st3, trace := [.submitCall currentValues]
        thrown := spec.throws currentValues }

/-- `handleSubmit(event)`: no-op (except for the outer `finally`) when
`onSubmit` is not callable; otherwise call the event capabilities that
exist, capture the current values, clear the errors, raise
`isSubmitting`, run `submitCore`, and — on every exit path, via the
outer `finally` — lower `isSubmitting`.

The source's capture `const currentValues = get(values)` keeps a
*reference* to the store's current object.  This value-level function
passes the entry values as a value, which is adequate for the flag and
error-map behaviour and for updates made through the library's own API
(those always replace the values object); the reference identity of the
capture itself — what an in-place mutation during the `await` reaches —
is modelled by `captureCurrentValues`/`setFieldValueH` in the heap
embedding. -/
def handleSubmit (cfg : FormConfig) (ev : EventCaps)
    (env : FormState → FormState) (st : FormState) : SubmitResult :=
  match cfg.onSubmit with
  | none => { state := { st with isSubmitting := false }, trace := [], thrown := none }
  | some spec =>
    let caps :=
      (if ev.hasPreventDefault then [TraceEv.preventDefault] else []) ++
      (if ev.hasStopPropagation then [TraceEv.stopPropagation] else [])
    let core :=
      submitCore cfg spec env st.values { clearErrors st with isSubmitting := true }
    { state := { core.state with isSubmitting := false }
      trace := caps ++ core.trace
      thrown := core.thrown }

/-! ## Public operation sequences -/

/-- One public operation on a form container (with the data the outside
world supplies to it).  For `handleSubmit`, `env` is the event-loop
interference at the validation suspension point. -/
inductive Op where
  | opSetFieldValue (f : String) (v : Value) (sv : Bool)
  | opSetFieldError (f : String) (m : Value)
  | opSetFieldTouched (f : String) (b : Bool)
  | opSetInitialValues (j : Obj)
  | opClearErrors
  | opReset
  | opValidateField (f : String)
  | opValidateFieldSync (f : String)
  | opHandleBlur (el : InputEl)
  | opHandleChange (el : InputEl)
  | opHandleFocus (el : InputEl)
  | opHandleInput (el : InputEl)
  | opHandleSubmit (ev : EventCaps) (env : FormState → FormState)

/-- The state after one public operation (exceptions propagate to the
caller of the operation and leave the state the operation reached). -/
def stepOp (cfg : FormConfig) (st : FormState) : Op → FormState
  | .opSetFieldValue f v sv => (setFieldValue cfg st f v sv).state
  | .opSetFieldError f m => setFieldError st f m
  | .opSetFieldTouched f b =>
    match setFieldTouched st f (.vBool b) with
    | .ok st' => st'
    | .error _ => st
  | .opSetInitialValues j => setInitialValues st j
  | .opClearErrors => clearErrors st
  | .opReset => reset st
  | .opValidateField f => (validateField cfg st f).state
  | .opValidateFieldSync f => (validateFieldSync cfg st f).state
  | .opHandleBlur el => handleBlur cfg st el
  | .opHandleChange el => (handleChange cfg st el).state
  | .opHandleFocus el => handleFocus cfg st el
  | .opHandleInput el => (handleInput cfg st el).state
  | .opHandleSubmit ev env => (handleSubmit cfg ev env st).state

/-- Run a sequence of public operations. -/
def runOps (cfg : FormConfig) (st : FormState) : List Op → FormState
  | [] => st
  | op :: rest => runOps cfg (stepOp cfg st op) rest

/-- The field a helper call targets. -/
def helperField : HelperCall → String
  | .callSetFieldError f _ => f
  | .callSetFieldValue f _ _ => f

/-- The key-set invariant: the values and initial-values key sets are
exactly the creation-time key set `K`; the errors and touched key sets
are subsets of `K`. -/
def KeyInv (K : List String) (st : FormState) : Prop :=
  keysOf st.initialValues = K ∧ keysOf st.values = K ∧
    (∀ k ∈ keysOf st.errors, k ∈ K) ∧ (∀ k ∈ keysOf st.touched, k ∈ K)

/-- A thrown single-field validation error whose `path` (when the error
has the shape `setYupValidationErrors` accepts) maps into `K`. -/
def errPathOK (K : List String) (e : Value) : Prop :=
  match e with
  | .vObj fs =>
    hasKey fs "path" = true →
      (∃ msgs, lookupObj fs "errors" = some (.vArr msgs)) →
      jsToString (getProp (.vObj fs) "path") ∈ K
  | _ => True

/-- An element of a whole-object validation error's `inner` list whose
`path` maps into `K` (nullish elements abort the accumulation before any
store write, so they are unconstrained). -/
def innerElemOK (K : List String) (e : Value) : Prop :=
  (e ≠ .vNull ∧ e ≠ .vUndefined) → jsToString (getProp e "path") ∈ K

/-- A validation schema that only reports paths inside `K`. -/
def schemaOK (K : List String) (sch : SchemaB) : Prop :=
  (∀ f o e, sch.validateAt f o = .thrown e → errPathOK K e) ∧
    (∀ f o e, sch.validateSyncAt f o = .thrown e → errPathOK K e) ∧
    (∀ o e, sch.validateAll o = .thrown e →
      ∀ l, getProp e "inner" = .vArr l → ∀ x ∈ l, innerElemOK K x)

/-- A configuration whose schema and submit callback only target fields
inside `K`. -/
def cfgOK (K : List String) (cfg : FormConfig) : Prop :=
  (∀ sch, cfg.validationSchema = some sch → schemaOK K sch) ∧
    (∀ spec, cfg.onSubmit = some spec →
      ∀ o c, c ∈ spec.script o → helperField c ∈ K)

/-- A public operation whose target fields lie inside `K` (and, for
`handleSubmit`, whose event-loop interference respects the invariant). -/
def OpOK (K : List String) : Op → Prop
  | .opSetFieldValue f _ _ => f ∈ K
  | .opSetFieldError f _ => f ∈ K
  | .opSetFieldTouched f _ => f ∈ K
  | .opSetInitialValues j => keysOf j = K
  | .opClearErrors => True
  | .opReset => True
  | .opValidateField f => f ∈ K
  | .opValidateFieldSync f => f ∈ K
  | .opHandleBlur el => el.name ∈ K
  | .opHandleChange el => el.name ∈ K
  | .opHandleFocus el => el.name ∈ K
  | .opHandleInput el => el.name ∈ K
  | .opHandleSubmit _ env => ∀ st, KeyInv K st → KeyInv K (env st)

/-! ## Auxiliary observations used by the theorems -/

/-- The last `message` written for path `p` by the spread-accumulation
over an `inner` list (the spec's "last write wins"). -/
def lastWins (l : List Value) (p : String) : Option Value :=
  match l.reverse.find? (fun e => jsToString (getProp e "path") == p) with
  | some e => some (getProp e "message")
  | none => none

/-- Whether a value is a JavaScript array. -/
def isArrV (v : Value) : Bool :=
  match v with
  | .vArr _ => true
  | _ => false

/-- A `file`-typed input element with two selected files, as the
repository's own test suite builds one. -/
def fileInputEx : InputEl :=
  { name := "logo"
    type := "file"
    value := .vStr "C:\\fakepath\\file1.txt"
    files := [⟨"file1.txt", 8, "text/plain"⟩, ⟨"file2.txt", 8, "text/plain"⟩] }

/-- A heap holding the nested initial-values object
`I = {a: {b: {c: "1"}}}`: cell 0 is `I`, cell 1 is `I.a`, cell 2 is
`I.a.b`. -/
def c4h0 : Heap :=
  [Cell.oCell [("a", JVal.jref 1)],
    Cell.oCell [("b", JVal.jref 2)],
    Cell.oCell [("c", JVal.jprim "1")]]

/-- A heap holding the flat initial-values object `{name: "a"}`. -/
def c5h0 : Heap :=
  [Cell.oCell [("name", JVal.jprim "a")]]

/-- `handleSubmit`'s snapshot capture `const currentValues = get(values)`
at the heap level: `get(values)` returns the store's current object
itself, so the capture is the values address — a reference, not a
copy. -/
def captureCurrentValues (fm : FormH) : Nat :=
  fm.valsAddr

/-- The store update every library-API write performs, at the heap
level: `values.update((cv) => ({...cv, [field]: value}))` allocates a
fresh object from the spread and points the store at it; the previous
values object is left untouched. -/
def setFieldValueH (fm : FormH) (k : String) (v : JVal) : FormH :=
  { heap := fm.heap ++ [Cell.oCell (setKeyJ (fieldsAt fm.heap fm.valsAddr) k v)]
    initAddr := fm.initAddr
    valsAddr := fm.heap.length }

/-- A heap holding the flat values object `{name: "typed"}` for the
submit-snapshot scenario. -/
def c7h0 : Heap :=
  [Cell.oCell [("name", JVal.jprim "typed")]]

/-! ## Basic lemmas about the object model -/

theorem cloneObj_eq_self (o : Obj) : cloneObj o = o := by
  induction o with
  | nil => rfl
  | cons kv rest ih =>
    cases kv with
    | mk k v => cases v <;> simp [cloneObj] <;> simp [cloneObj] at ih <;> exact ih

theorem keysOf_cloneObj (o : Obj) : keysOf (cloneObj o) = keysOf o := by
  rw [cloneObj_eq_self]

theorem keysOf_cloneDefault (o : Obj) (d : Value) :
    keysOf (cloneDefault o d) = keysOf o := by
  induction o with
  | nil => rfl
  | cons kv rest ih => simp [cloneDefault, keysOf]

/-! ## Lemmas about the heap embedding -/

theorem mem_of_getElem?_heap {α : Type} {l : List α} {n : Nat} {a : α}
    (h : l[n]? = some a) : a ∈ l := by
  obtain ⟨hlt, hget⟩ := List.getElem?_eq_some.mp h
  exact hget ▸ List.getElem_mem hlt

theorem jvalBounded_mono {n m : Nat} (hnm : n ≤ m) {v : JVal}
    (hv : jvalBounded n v = true) : jvalBounded m v = true := by
  cases v with
  | jprim p => rfl
  | jref a =>
    simp only [jvalBounded, decide_eq_true_eq] at hv ⊢
    omega

theorem cellBounded_mono {n m : Nat} (hnm : n ≤ m) {c : Cell}
    (hc : cellBounded n c = true) : cellBounded m c = true := by
  cases c with
  | oCell fs =>
    simp only [cellBounded, List.all_eq_true] at hc ⊢
    intro kv hkv
    exact jvalBounded_mono hnm (hc kv hkv)
  | aCell es =>
    simp only [cellBounded, List.all_eq_true] at hc ⊢
    intro v hv
    exact jvalBounded_mono hnm (hc v hv)

theorem heapClosed_cell {h : Heap} (hcl : heapClosedB h = true) {c : Cell}
    (hc : c ∈ h) : cellBounded h.length c = true := by
  rw [heapClosedB, List.all_eq_true] at hcl
  exact hcl c hc

theorem heapClosed_snoc {h : Heap} {c : Cell} (hcl : heapClosedB h = true)
    (hc : cellBounded h.length c = true) : heapClosedB (h ++ [c]) = true := by
  rw [heapClosedB, List.all_eq_true]
  intro x hx
  have hlen : (h ++ [c]).length = h.length + 1 := by simp
  rw [List.mem_append] at hx
  rcases hx with hx | hx
  · exact hlen ▸ cellBounded_mono (Nat.le_succ _) (heapClosed_cell hcl hx)
  · have : x = c := by simpa using hx
    subst this
    exact hlen ▸ cellBounded_mono (Nat.le_succ _) hc

theorem lookupJ_mem {fs : List (String × JVal)} {k : String} {v : JVal}
    (h : lookupJ fs k = some v) : (k, v) ∈ fs := by
  induction fs with
  | nil => simp [lookupJ] at h
  | cons kv rest ih =>
    obtain ⟨k', v'⟩ := kv
    rw [lookupJ] at h
    by_cases hk : k' = k
    · subst hk
      simp only [if_pos rfl] at h
      cases h
      exact List.mem_cons_self _ _
    · rw [if_neg hk] at h
      exact List.mem_cons_of_mem _ (ih h)

theorem oCell_field_bounded {h : Heap} (hcl : heapClosedB h = true)
    {a : Nat} {fs : List (String × JVal)} (ha : h[a]? = some (.oCell fs))
    {k : String} {v : JVal} (hlk : lookupJ fs k = some v) :
    jvalBounded h.length v = true := by
  have hc := heapClosed_cell hcl (mem_of_getElem?_heap ha)
  rw [cellBounded, List.all_eq_true] at hc
  exact hc (k, v) (lookupJ_mem hlk)

theorem aCell_elem_bounded {h : Heap} (hcl : heapClosedB h = true)
    {a : Nat} {es : List JVal} (ha : h[a]? = some (.aCell es))
    {i : Nat} {v : JVal} (hi : es[i]? = some v) :
    jvalBounded h.length v = true := by
  have hc := heapClosed_cell hcl (mem_of_getElem?_heap ha)
  rw [cellBounded, List.all_eq_true] at hc
  exact hc v (mem_of_getElem?_heap hi)

/-- Appending fresh cells to a closed heap changes no observation made
through a value whose references lie in the old heap. -/
theorem readPath_append (h ex : Heap) (hcl : heapClosedB h = true) :
    ∀ (p : List String) (v : JVal), jvalBounded h.length v = true →
    readPath (h ++ ex) v p = readPath h v p := by
  intro p
  induction p with
  | nil => intro v hv; cases v <;> rfl
  | cons k rest ih =>
    intro v hv
    cases v with
    | jprim p' => rfl
    | jref a =>
      have ha : a < h.length := by
        simpa [jvalBounded] using hv
      have hga : (h ++ ex)[a]? = h[a]? := List.getElem?_append_left ha
      simp only [readPath, hga]
      cases hcell : h[a]? with
      | none => rfl
      | some c =>
        cases c with
        | oCell fs =>
          cases hlk : lookupJ fs k with
          | none => simp [hlk]
          | some v' =>
            simp only [hlk]
            exact ih v' (oCell_field_bounded hcl hcell hlk)
        | aCell es =>
          cases hnat : k.toNat? with
          | none => simp [hnat]
          | some i =>
            cases hel : es[i]? with
            | none => simp [hnat, hel]
            | some v' =>
              simp only [hnat, hel]
              exact ih v' (aCell_elem_bounded hcl hcell hel)

theorem cloneFields_fst (fs : List (String × JVal)) :
    ∀ h : Heap, ∃ ex, (cloneFields h fs).1 = h ++ ex := by
  induction fs with
  | nil => intro h; exact ⟨[], by simp [cloneFields]⟩
  | cons kv rest ih =>
    intro h
    obtain ⟨k, v⟩ := kv
    cases v with
    | jprim p =>
      obtain ⟨ex, hex⟩ := ih h
      exact ⟨ex, by simp [cloneFields, hex]⟩
    | jref b =>
      cases hb : h[b]? with
      | none =>
        obtain ⟨ex, hex⟩ := ih h
        exact ⟨ex, by simp [cloneFields, hb, hex]⟩
      | some c =>
        cases c with
        | oCell gs =>
          obtain ⟨ex, hex⟩ := ih (h ++ [Cell.oCell gs])
          exact ⟨[Cell.oCell gs] ++ ex, by simp [cloneFields, hb, hex]⟩
        | aCell es =>
          obtain ⟨ex, hex⟩ := ih (h ++ [Cell.aCell es])
          exact ⟨[Cell.aCell es] ++ ex, by simp [cloneFields, hb, hex]⟩

theorem readField_cons_self (h : Heap) (k : String) (v : JVal)
    (fs : List (String × JVal)) (rest : List String) :
    readField h ((k, v) :: fs) k rest = readPath h v rest := by
  simp [readField, lookupJ]

theorem readField_cons_ne (h : Heap) {k' k : String} (hk : k' ≠ k)
    (v : JVal) (fs : List (String × JVal)) (rest : List String) :
    readField h ((k', v) :: fs) k rest = readField h fs k rest := by
  simp [readField, lookupJ, hk]

theorem readField_append (h ex : Heap) (hcl : heapClosedB h = true)
    (fs : List (String × JVal))
    (hb : fs.all (fun kv => jvalBounded h.length kv.2) = true)
    (k : String) (rest : List String) :
    readField (h ++ ex) fs k rest = readField h fs k rest := by
  simp only [readField]
  cases hlk : lookupJ fs k with
  | none => rfl
  | some v =>
    simp only [hlk]
    have hv : jvalBounded h.length v = true := by
      rw [List.all_eq_true] at hb
      exact hb (k, v) (lookupJ_mem hlk)
    exact readPath_append h ex hcl rest v hv

/-- The copied field list built by `cloneFields` answers every property
read exactly like the original field list, in any extension of the grown
heap: the copy is observationally a deep copy even though it shares
structure below one level. -/
theorem cloneFields_readField :
    ∀ (fs : List (String × JVal)) (h : Heap),
    heapClosedB h = true →
    fs.all (fun kv => jvalBounded h.length kv.2) = true →
    ∀ (ex : Heap) (k : String) (rest : List String),
    readField ((cloneFields h fs).1 ++ ex) (cloneFields h fs).2 k rest =
      readField h fs k rest := by
  intro fs
  induction fs with
  | nil =>
    intro h hcl hb ex k rest
    simp [cloneFields, readField, lookupJ]
  | cons kv restFs ih =>
    intro h hcl hb ex k rest
    obtain ⟨k0, v0⟩ := kv
    have hb0 : jvalBounded h.length v0 = true := by
      rw [List.all_eq_true] at hb
      exact hb (k0, v0) (List.mem_cons_self _ _)
    have hbrest : restFs.all (fun kv => jvalBounded h.length kv.2) = true := by
      rw [List.all_eq_true] at hb ⊢
      intro x hx
      exact hb x (List.mem_cons_of_mem _ hx)
    cases v0 with
    | jprim p =>
      by_cases hk : k0 = k
      · subst hk
        simp only [cloneFields]
        rw [readField_cons_self, readField_cons_self]
        cases rest <;> rfl
      · simp only [cloneFields]
        rw [readField_cons_ne _ hk, readField_cons_ne _ hk]
        exact ih h hcl hbrest ex k rest
    | jref b =>
      have hblt : b < h.length := by
        simpa [jvalBounded] using hb0
      cases hcell : h[b]? with
      | none =>
        exfalso
        have := List.getElem?_eq_getElem hblt
        rw [hcell] at this
        cases this
      | some c =>
        have hcb : cellBounded h.length c = true :=
          heapClosed_cell hcl (mem_of_getElem?_heap hcell)
        cases c with
        | oCell gs =>
          have hcl1 : heapClosedB (h ++ [Cell.oCell gs]) = true :=
            heapClosed_snoc hcl hcb
          have hbrest1 :
              restFs.all
                (fun kv => jvalBounded (h ++ [Cell.oCell gs]).length kv.2)
                = true := by
            rw [List.all_eq_true] at hbrest ⊢
            intro x hx
            exact jvalBounded_mono (by simp) (hbrest x hx)
          obtain ⟨ex1, hex1⟩ := cloneFields_fst restFs (h ++ [Cell.oCell gs])
          by_cases hk : k0 = k
          · subst hk
            simp only [cloneFields, hcell]
            rw [readField_cons_self, readField_cons_self]
            cases rest with
            | nil => rfl
            | cons k2 p2 =>
              rw [hex1, List.append_assoc, List.append_assoc]
              have hget :
                  (h ++ ([Cell.oCell gs] ++ (ex1 ++ ex)))[h.length]? =
                    some (Cell.oCell gs) := by
                rw [List.getElem?_append_right (Nat.le_refl _)]
                simp
              simp only [readPath, hget, hcell]
              cases hlk2 : lookupJ gs k2 with
              | none => simp [hlk2]
              | some v2 =>
                simp only [hlk2]
                exact readPath_append h _ hcl p2 v2
                  (oCell_field_bounded hcl hcell hlk2)
          · simp only [cloneFields, hcell]
            rw [readField_cons_ne _ hk, readField_cons_ne _ hk]
            rw [ih (h ++ [Cell.oCell gs]) hcl1 hbrest1 ex k rest]
            exact readField_append h [Cell.oCell gs] hcl restFs hbrest k rest
        | aCell es =>
          have hcl1 : heapClosedB (h ++ [Cell.aCell es]) = true :=
            heapClosed_snoc hcl hcb
          have hbrest1 :
              restFs.all
                (fun kv => jvalBounded (h ++ [Cell.aCell es]).length kv.2)
                = true := by
            rw [List.all_eq_true] at hbrest ⊢
            intro x hx
            exact jvalBounded_mono (by simp) (hbrest x hx)
          obtain ⟨ex1, hex1⟩ := cloneFields_fst restFs (h ++ [Cell.aCell es])
          by_cases hk : k0 = k
          · subst hk
            simp only [cloneFields, hcell]
            rw [readField_cons_self, readField_cons_self]
            cases rest with
            | nil => rfl
            | cons k2 p2 =>
              rw [hex1, List.append_assoc, List.append_assoc]
              have hget :
                  (h ++ ([Cell.aCell es] ++ (ex1 ++ ex)))[h.length]? =
                    some (Cell.aCell es) := by
                rw [List.getElem?_append_right (Nat.le_refl _)]
                simp
              simp only [readPath, hget, hcell]
              cases hnat : k2.toNat? with
              | none => simp [hnat]
              | some i =>
                cases hel : es[i]? with
                | none => simp [hnat, hel]
                | some v2 =>
                  simp only [hnat, hel]
                  exact readPath_append h _ hcl p2 v2
                    (aCell_elem_bounded hcl hcell hel)
          · simp only [cloneFields, hcell]
            rw [readField_cons_ne _ hk, readField_cons_ne _ hk]
            rw [ih (h ++ [Cell.aCell es]) hcl1 hbrest1 ex k rest]
            exact readField_append h [Cell.aCell es] hcl restFs hbrest k rest

/-- The values store built by the heap-level `newForm` answers every read
path exactly like the caller's initial-values object did at creation
time. -/
theorem newFormH_readPath (h : Heap) (a : Nat) (hcl : heapClosedB h = true)
    (fs : List (String × JVal)) (ha : h[a]? = some (.oCell fs))
    (p : List String) :
    readPath (newFormH h a).heap (.jref (newFormH h a).valsAddr) p =
      readPath h (.jref a) p := by
  have hfields : fieldsAt h a = fs := by
    simp [fieldsAt, ha]
  have hb : fs.all (fun kv => jvalBounded h.length kv.2) = true := by
    have hc := heapClosed_cell hcl (mem_of_getElem?_heap ha)
    rw [cellBounded] at hc
    exact hc
  cases p with
  | nil => rfl
  | cons k rest =>
    obtain ⟨ex1, hex1⟩ := cloneFields_fst (fieldsAt h a) h
    have hlen :
        (newFormH h a).valsAddr = (cloneFields h (fieldsAt h a)).1.length + 1 := by
      simp [newFormH]
    have hcellv :
        (newFormH h a).heap[(newFormH h a).valsAddr]? =
          some (Cell.oCell (cloneFields h (fieldsAt h a)).2) := by
      simp only [newFormH]
      rw [List.append_assoc, List.getElem?_append_right (by simp)]
      simp
    simp only [readPath, hcellv]
    have hmain := cloneFields_readField (fieldsAt h a) h hcl (hfields ▸ hb)
      ([Cell.oCell (cloneFields h (fieldsAt h a)).2,
        Cell.oCell (cloneFields h (fieldsAt h a)).2]) k rest
    rw [readField, readField] at hmain
    have hheap :
        (newFormH h a).heap =
          (cloneFields h (fieldsAt h a)).1 ++
            [Cell.oCell (cloneFields h (fieldsAt h a)).2,
              Cell.oCell (cloneFields h (fieldsAt h a)).2] := by
      simp [newFormH]
    rw [hheap]
    rw [hmain]
    rw [hfields, ha]

/-! ## Lemmas about spread updates -/

theorem hasKey_iff_mem (o : Obj) (k : String) :
    hasKey o k = true ↔ k ∈ keysOf o := by
  induction o with
  | nil => simp [hasKey, keysOf]
  | cons kv rest ih =>
    obtain ⟨k0, v0⟩ := kv
    simp [hasKey, keysOf, ih]
    constructor
    · rintro (h | h)
      · exact Or.inl h.symm
      · exact Or.inr h
    · rintro (h | h)
      · exact Or.inl h.symm
      · exact Or.inr h

theorem hasKey_eq_isSome (o : Obj) (k : String) :
    hasKey o k = (lookupObj o k).isSome := by
  induction o with
  | nil => rfl
  | cons kv rest ih =>
    obtain ⟨k0, v0⟩ := kv
    by_cases h : k0 = k <;> simp [hasKey, lookupObj, h, ih]

theorem keysOf_setKeyGo (o : Obj) (k : String) (v : Value) :
    keysOf (setKeyGo o k v) = keysOf o := by
  induction o with
  | nil => rfl
  | cons kv rest ih =>
    obtain ⟨k0, v0⟩ := kv
    by_cases h : k0 = k <;> simp [setKeyGo, keysOf, h] <;>
      simp [keysOf] at ih <;> exact ih

theorem keysOf_append (o o' : Obj) :
    keysOf (o ++ o') = keysOf o ++ keysOf o' := by
  simp [keysOf]

theorem keysOf_setKey_of_mem {o : Obj} {k : String} (v : Value)
    (h : k ∈ keysOf o) : keysOf (setKey o k v) = keysOf o := by
  rw [setKey, if_pos ((hasKey_iff_mem o k).2 h)]
  exact keysOf_setKeyGo o k v

theorem keysOf_setKey_subset {o : Obj} {k : String} {v : Value}
    {k' : String} (h : k' ∈ keysOf (setKey o k v)) :
    k' ∈ keysOf o ∨ k' = k := by
  rw [setKey] at h
  by_cases hk : hasKey o k
  · rw [if_pos hk, keysOf_setKeyGo] at h
    exact Or.inl h
  · rw [if_neg hk, keysOf_append] at h
    rcases List.mem_append.mp h with h | h
    · exact Or.inl h
    · simp [keysOf] at h
      exact Or.inr h

theorem lookupObj_append (o o' : Obj) (p : String) :
    lookupObj (o ++ o') p =
      match lookupObj o p with
      | some w => some w
      | none => lookupObj o' p := by
  induction o with
  | nil => simp [lookupObj]
  | cons kv rest ih =>
    obtain ⟨k0, v0⟩ := kv
    by_cases h : k0 = p <;> simp [lookupObj, h, ih]

theorem lookupObj_setKeyGo_self {o : Obj} {k : String} (v : Value)
    (hk : hasKey o k = true) :
    lookupObj (setKeyGo o k v) k = some v := by
  induction o with
  | nil => simp [hasKey] at hk
  | cons kv rest ih =>
    obtain ⟨k0, v0⟩ := kv
    by_cases h : k0 = k
    · subst h
      simp [setKeyGo, lookupObj]
    · simp only [hasKey] at hk
      rw [setKeyGo, if_neg h, lookupObj, if_neg h]
      apply ih
      simpa [h] using hk

theorem lookupObj_setKeyGo_ne {o : Obj} {k : String} (v : Value)
    {p : String} (hp : p ≠ k) :
    lookupObj (setKeyGo o k v) p = lookupObj o p := by
  induction o with
  | nil => rfl
  | cons kv rest ih =>
    obtain ⟨k0, v0⟩ := kv
    by_cases h : k0 = k
    · subst h
      have hne : k0 ≠ p := fun hh => hp hh.symm
      rw [setKeyGo, if_pos rfl, lookupObj, if_neg hne, lookupObj, if_neg hne]
      exact ih
    · rw [setKeyGo, if_neg h]
      by_cases hkp : k0 = p
      · rw [lookupObj, if_pos hkp, lookupObj, if_pos hkp]
      · rw [lookupObj, if_neg hkp, lookupObj, if_neg hkp]
        exact ih

theorem lookupObj_setKey (o : Obj) (k : String) (v : Value) (p : String) :
    lookupObj (setKey o k v) p = if p = k then some v else lookupObj o p := by
  by_cases hk : hasKey o k
  · rw [setKey, if_pos hk]
    by_cases hp : p = k
    · subst hp
      rw [if_pos rfl]
      exact lookupObj_setKeyGo_self v hk
    · rw [if_neg hp]
      exact lookupObj_setKeyGo_ne v hp
  · rw [setKey, if_neg hk, lookupObj_append]
    by_cases hp : p = k
    · subst hp
      have hnone : lookupObj o p = none := by
        cases hlo : lookupObj o p with
        | none => rfl
        | some w =>
          exfalso
          apply hk
          rw [hasKey_eq_isSome, hlo]
          rfl
      rw [hnone, if_pos rfl]
      simp [lookupObj]
    · rw [if_neg hp]
      have hne : k ≠ p := fun h => hp h.symm
      cases hlo : lookupObj o p with
      | some w => simp
      | none => simp [lookupObj, hne]

/-! ## Preservation of the key-set invariant -/

theorem errPathOK_typeError (K : List String) : errPathOK K typeErrorValue :=
  fun hp _ => absurd hp (by decide)

theorem keyInv_setFieldError {K : List String} {st : FormState}
    (hinv : KeyInv K st) {f : String} (hf : f ∈ K) (m : Value) :
    KeyInv K (setFieldError st f m) := by
  obtain ⟨h1, h2, h3, h4⟩ := hinv
  refine ⟨h1, h2, ?_, h4⟩
  intro k hk
  rcases keysOf_setKey_subset hk with hk' | rfl
  · exact h3 k hk'
  · exact hf

theorem setYup_state_cases (st : FormState) (e : Value) :
    (setYupValidationErrors st e).state = st ∨
      ∃ fs msgs, e = .vObj fs ∧ hasKey fs "path" = true ∧
        lookupObj fs "errors" = some (.vArr msgs) ∧
        (setYupValidationErrors st e).state =
          setFieldError st (jsToString (getProp e "path"))
            (msgs.headD .vUndefined) := by
  cases e with
  | vObj fs =>
    by_cases hp : hasKey fs "path" = true
    · cases hlk : lookupObj fs "errors" with
      | none =>
        left
        simp [setYupValidationErrors, hp, hlk]
      | some w =>
        cases w with
        | vArr msgs =>
          right
          exact ⟨fs, msgs, rfl, hp, hlk, by simp [setYupValidationErrors, hp, hlk]⟩
        | vUndefined => left; simp [setYupValidationErrors, hp, hlk]
        | vNull => left; simp [setYupValidationErrors, hp, hlk]
        | vNaN => left; simp [setYupValidationErrors, hp, hlk]
        | vBool b => left; simp [setYupValidationErrors, hp, hlk]
        | vNum n => left; simp [setYupValidationErrors, hp, hlk]
        | vStr s => left; simp [setYupValidationErrors, hp, hlk]
        | vObj gs => left; simp [setYupValidationErrors, hp, hlk]
    · left
      simp [setYupValidationErrors, hp]
  | vUndefined => left; rfl
  | vNull => left; rfl
  | vNaN => left; rfl
  | vBool b => left; rfl
  | vNum n => left; rfl
  | vStr s => left; rfl
  | vArr xs => left; rfl

theorem keyInv_setYup {K : List String} {st : FormState} {e : Value}
    (hinv : KeyInv K st) (hok : errPathOK K e) :
    KeyInv K (setYupValidationErrors st e).state := by
  rcases setYup_state_cases st e with h | ⟨fs, msgs, rfl, hp, hlk, h⟩
  · rw [h]
    exact hinv
  · rw [h]
    exact keyInv_setFieldError hinv (hok hp ⟨msgs, hlk⟩) _

theorem keyInv_validateField {K : List String} {cfg : FormConfig}
    {st : FormState} {f : String} (hinv : KeyInv K st) (hf : f ∈ K)
    (hcfg : cfgOK K cfg) : KeyInv K (validateField cfg st f).state := by
  cases hsch : cfg.validationSchema with
  | none =>
    simp only [validateField, hsch]
    exact keyInv_setYup hinv (errPathOK_typeError K)
  | some sch =>
    simp only [validateField, hsch]
    cases hres : sch.validateAt f st.values with
    | ok => exact keyInv_setFieldError hinv hf _
    | thrown e => exact keyInv_setYup hinv ((hcfg.1 sch hsch).1 f st.values e hres)

theorem keyInv_validateFieldSync {K : List String} {cfg : FormConfig}
    {st : FormState} {f : String} (hinv : KeyInv K st) (hf : f ∈ K)
    (hcfg : cfgOK K cfg) : KeyInv K (validateFieldSync cfg st f).state := by
  cases hsch : cfg.validationSchema with
  | none =>
    simp only [validateFieldSync, hsch]
    exact keyInv_setYup hinv (errPathOK_typeError K)
  | some sch =>
    simp only [validateFieldSync, hsch]
    cases hres : sch.validateSyncAt f st.values with
    | ok => exact keyInv_setFieldError hinv hf _
    | thrown e =>
      exact keyInv_setYup hinv ((hcfg.1 sch hsch).2.1 f st.values e hres)

theorem keyInv_setFieldValue {K : List String} {cfg : FormConfig}
    {st : FormState} {f : String} {v : Value} {sv : Bool}
    (hinv : KeyInv K st) (hf : f ∈ K) (hcfg : cfgOK K cfg) :
    KeyInv K (setFieldValue cfg st f v sv).state := by
  have hst1 : KeyInv K { st with values := setKey st.values f v } := by
    obtain ⟨h1, h2, h3, h4⟩ := hinv
    refine ⟨h1, ?_, h3, h4⟩
    have hfv : f ∈ keysOf st.values := by
      rw [h2]
      exact hf
    show keysOf (setKey st.values f v) = K
    rw [keysOf_setKey_of_mem v hfv, h2]
  simp only [setFieldValue]
  by_cases hcond : (sv && cfg.validationSchema.isSome) = true
  · rw [if_pos hcond]
    exact keyInv_validateFieldSync hst1 hf hcfg
  · rw [if_neg hcond]
    exact hst1

theorem keyInv_stepTouched {K : List String} {st : FormState} {f : String}
    {b : Bool} (hinv : KeyInv K st) (hf : f ∈ K) :
    KeyInv K
      (match setFieldTouched st f (.vBool b) with
       | .ok st' => st'
       | .error _ => st) := by
  simp only [setFieldTouched]
  obtain ⟨h1, h2, h3, h4⟩ := hinv
  refine ⟨h1, h2, h3, ?_⟩
  intro k hk
  rcases keysOf_setKey_subset hk with hk' | rfl
  · exact h4 k hk'
  · exact hf

theorem keyInv_setInitialValues {K : List String} {st : FormState} {j : Obj}
    (hinv : KeyInv K st) (hj : keysOf j = K) :
    KeyInv K (setInitialValues st j) := by
  obtain ⟨h1, h2, h3, h4⟩ := hinv
  refine ⟨?_, h2, h3, h4⟩
  show keysOf (cloneObj j) = K
  rw [keysOf_cloneObj, hj]

theorem keyInv_clearErrors {K : List String} {st : FormState}
    (hinv : KeyInv K st) : KeyInv K (clearErrors st) := by
  obtain ⟨h1, h2, h3, h4⟩ := hinv
  refine ⟨h1, h2, ?_, h4⟩
  intro k hk
  have heq : keysOf (cloneDefault st.initialValues Value.vNull) =
      keysOf st.initialValues := keysOf_cloneDefault _ _
  rw [show (clearErrors st).errors = cloneDefault st.initialValues Value.vNull
    from rfl, heq, h1] at hk
  exact hk

theorem keyInv_reset {K : List String} {st : FormState}
    (hinv : KeyInv K st) : KeyInv K (reset st) :=
  ⟨hinv.1, hinv.1, hinv.2.2.1, hinv.2.2.2⟩

theorem keyInv_handleBlur {K : List String} {cfg : FormConfig}
    {st : FormState} {el : InputEl} (hinv : KeyInv K st) (hn : el.name ∈ K)
    (hcfg : cfgOK K cfg) : KeyInv K (handleBlur cfg st el) := by
  have hst1 := @keyInv_stepTouched K st el.name true hinv hn
  simp only [handleBlur]
  by_cases hb : cfg.validateOnBlur = true
  · rw [if_pos hb]
    exact keyInv_validateField hst1 hn hcfg
  · rw [if_neg hb]
    exact hst1

theorem keyInv_handleFocus {K : List String} {cfg : FormConfig}
    {st : FormState} {el : InputEl} (hinv : KeyInv K st) (hn : el.name ∈ K)
    (hcfg : cfgOK K cfg) : KeyInv K (handleFocus cfg st el) := by
  have hst1 := @keyInv_stepTouched K st el.name true hinv hn
  simp only [handleFocus]
  by_cases hb : cfg.validateOnFocus = true
  · rw [if_pos hb]
    exact keyInv_validateField hst1 hn hcfg
  · rw [if_neg hb]
    exact hst1

theorem keyInv_runHelpers {K : List String} {cfg : FormConfig}
    (hcfg : cfgOK K cfg) :
    ∀ (calls : List HelperCall) (st : FormState), KeyInv K st →
    (∀ c ∈ calls, helperField c ∈ K) →
    (∀ st', runHelpers cfg st calls = .ok st' → KeyInv K st') ∧
      (∀ e st', runHelpers cfg st calls = .error (e, st') → KeyInv K st') := by
  intro calls
  induction calls with
  | nil =>
    intro st hinv hc
    constructor
    · intro st' h
      simp only [runHelpers] at h
      cases h
      exact hinv
    · intro e st' h
      simp [runHelpers] at h
  | cons c rest ih =>
    intro st hinv hc
    have hcK : helperField c ∈ K := hc c (List.mem_cons_self _ _)
    have hrest : ∀ x ∈ rest, helperField x ∈ K :=
      fun x hx => hc x (List.mem_cons_of_mem _ hx)
    cases c with
    | callSetFieldError f m =>
      simp only [runHelpers]
      exact ih (setFieldError st f m) (keyInv_setFieldError hinv hcK m) hrest
    | callSetFieldValue f v sv =>
      simp only [runHelpers]
      have hstate := @keyInv_setFieldValue K cfg st f v sv hinv hcK hcfg
      cases hth : (setFieldValue cfg st f v sv).thrown with
      | some e2 =>
        constructor
        · intro st' h
          simp [hth] at h
        · intro e st' h
          simp only [hth] at h
          cases h
          exact hstate
      | none =>
        simp only [hth]
        exact ih _ hstate hrest

theorem accumulate_cons_nonnull {e : Value} (rest : List Value) (acc : Obj)
    (hne : e ≠ .vNull ∧ e ≠ .vUndefined) :
    accumulateInner (e :: rest) acc =
      accumulateInner rest
        (setKey acc (jsToString (getProp e "path")) (getProp e "message")) := by
  cases e <;> first
    | rfl
    | exact absurd rfl hne.1
    | exact absurd rfl hne.2

theorem keysOf_accumulateInner {K : List String} :
    ∀ (l : List Value) (acc m : Obj),
    (∀ x ∈ l, innerElemOK K x) →
    (∀ k ∈ keysOf acc, k ∈ K) →
    accumulateInner l acc = .ok m →
    ∀ k ∈ keysOf m, k ∈ K := by
  intro l
  induction l with
  | nil =>
    intro acc m hl hacc h
    simp only [accumulateInner] at h
    cases h
    exact hacc
  | cons e rest ih =>
    intro acc m hl hacc h
    have he : innerElemOK K e := hl e (List.mem_cons_self _ _)
    have hrest : ∀ x ∈ rest, innerElemOK K x :=
      fun x hx => hl x (List.mem_cons_of_mem _ hx)
    cases e <;> first
      | (simp [accumulateInner] at h; done)
      | (rw [accumulate_cons_nonnull rest acc
            ⟨fun hh => Value.noConfusion hh, fun hh => Value.noConfusion hh⟩] at h
         refine ih _ m hrest ?_ h
         intro k hk
         rcases keysOf_setKey_subset hk with hk' | rfl
         · exact hacc k hk'
         · exact he ⟨fun hh => Value.noConfusion hh, fun hh => Value.noConfusion hh⟩)

theorem keyInv_submitCore {K : List String} {cfg : FormConfig}
    {spec : OnSubmitSpec} {env : FormState → FormState} {cv : Obj}
    {st : FormState} (hinv : KeyInv K st) (hcfg : cfgOK K cfg)
    (hos : cfg.onSubmit = some spec)
    (henv : ∀ s, KeyInv K s → KeyInv K (env s)) :
    KeyInv K (submitCore cfg spec env cv st).state := by
  have hscript : ∀ o c, c ∈ spec.script o → helperField c ∈ K :=
    hcfg.2 spec hos
  cases hsch : cfg.validationSchema with
  | none =>
    simp only [submitCore, hsch]
    cases hrh : runHelpers cfg st (spec.script cv) with
    | error em =>
      obtain ⟨e2, st2⟩ := em
      simp only [hrh]
      exact (keyInv_runHelpers hcfg (spec.script cv) st hinv
        (hscript cv)).2 e2 st2 hrh
    | ok st3 =>
      simp only [hrh]
      exact (keyInv_runHelpers hcfg (spec.script cv) st hinv
        (hscript cv)).1 st3 hrh
  | some sch =>
    simp only [submitCore, hsch]
    have hmid : KeyInv K (env { st with isValidating := true }) :=
      henv _ ⟨hinv.1, hinv.2.1, hinv.2.2.1, hinv.2.2.2⟩
    cases hres : sch.validateAll cv with
    | ok =>
      simp only [hres]
      have hst2 : KeyInv K
          { env { st with isValidating := true } with isValidating := false } :=
        ⟨hmid.1, hmid.2.1, hmid.2.2.1, hmid.2.2.2⟩
      cases hrh : runHelpers cfg
          { env { st with isValidating := true } with isValidating := false }
          (spec.script cv) with
      | error em =>
        obtain ⟨e2, st2⟩ := em
        simp only [hrh]
        exact (keyInv_runHelpers hcfg (spec.script cv) _ hst2
          (hscript cv)).2 e2 st2 hrh
      | ok st3 =>
        simp only [hrh]
        exact (keyInv_runHelpers hcfg (spec.script cv) _ hst2
          (hscript cv)).1 st3 hrh
    | thrown e =>
      simp only [hres]
      by_cases htr : truthy (getProp e "inner") = true
      · rw [if_pos htr]
        cases hin : getProp e "inner" with
        | vArr l =>
          cases hacc : accumulateInner l [] with
          | ok errMap =>
            simp only [hacc]
            refine ⟨hmid.1, hmid.2.1, ?_, hmid.2.2.2⟩
            intro k hk
            refine keysOf_accumulateInner l [] errMap ?_ ?_ hacc k hk
            · exact (hcfg.1 sch hsch).2.2 cv e hres l hin
            · intro k2 hk2
              simp [keysOf] at hk2
          | error te =>
            simp only [hacc]
            exact ⟨hmid.1, hmid.2.1, hmid.2.2.1, hmid.2.2.2⟩
        | vUndefined => exact ⟨hmid.1, hmid.2.1, hmid.2.2.1, hmid.2.2.2⟩
        | vNull => exact ⟨hmid.1, hmid.2.1, hmid.2.2.1, hmid.2.2.2⟩
        | vNaN => exact ⟨hmid.1, hmid.2.1, hmid.2.2.1, hmid.2.2.2⟩
        | vBool b => exact ⟨hmid.1, hmid.2.1, hmid.2.2.1, hmid.2.2.2⟩
        | vNum n => exact ⟨hmid.1, hmid.2.1, hmid.2.2.1, hmid.2.2.2⟩
        | vStr s => exact ⟨hmid.1, hmid.2.1, hmid.2.2.1, hmid.2.2.2⟩
        | vObj gs => exact ⟨hmid.1, hmid.2.1, hmid.2.2.1, hmid.2.2.2⟩
      · rw [if_neg htr]
        exact ⟨hmid.1, hmid.2.1, hmid.2.2.1, hmid.2.2.2⟩

theorem keyInv_handleSubmit {K : List String} {cfg : FormConfig}
    {ev : EventCaps} {env : FormState → FormState} {st : FormState}
    (hinv : KeyInv K st) (hcfg : cfgOK K cfg)
    (henv : ∀ s, KeyInv K s → KeyInv K (env s)) :
    KeyInv K (handleSubmit cfg ev env st).state := by
  cases hos : cfg.onSubmit with
  | none =>
    simp only [handleSubmit, hos]
    exact ⟨hinv.1, hinv.2.1, hinv.2.2.1, hinv.2.2.2⟩
  | some spec =>
    simp only [handleSubmit, hos]
    have hst2 : KeyInv K { clearErrors st with isSubmitting := true } := by
      have := keyInv_clearErrors hinv
      exact ⟨this.1, this.2.1, this.2.2.1, this.2.2.2⟩
    have hcore := @keyInv_submitCore K cfg spec env st.values
      { clearErrors st with isSubmitting := true } hst2 hcfg hos henv
    exact ⟨hcore.1, hcore.2.1, hcore.2.2.1, hcore.2.2.2⟩

theorem keyInv_stepOp {K : List String} {cfg : FormConfig} {st : FormState}
    {op : Op} (hinv : KeyInv K st) (hcfg : cfgOK K cfg) (hop : OpOK K op) :
    KeyInv K (stepOp cfg st op) := by
  cases op with
  | opSetFieldValue f v sv => exact keyInv_setFieldValue hinv hop hcfg
  | opSetFieldError f m => exact keyInv_setFieldError hinv hop m
  | opSetFieldTouched f b => exact keyInv_stepTouched hinv hop
  | opSetInitialValues j => exact keyInv_setInitialValues hinv hop
  | opClearErrors => exact keyInv_clearErrors hinv
  | opReset => exact keyInv_reset hinv
  | opValidateField f => exact keyInv_validateField hinv hop hcfg
  | opValidateFieldSync f => exact keyInv_validateFieldSync hinv hop hcfg
  | opHandleBlur el => exact keyInv_handleBlur hinv hop hcfg
  | opHandleChange el => exact keyInv_setFieldValue hinv hop hcfg
  | opHandleFocus el => exact keyInv_handleFocus hinv hop hcfg
  | opHandleInput el => exact keyInv_setFieldValue hinv hop hcfg
  | opHandleSubmit ev env => exact keyInv_handleSubmit hinv hcfg hop

theorem keyInv_runOps {K : List String} {cfg : FormConfig}
    (hcfg : cfgOK K cfg) :
    ∀ (ops : List Op) (st : FormState), KeyInv K st →
    (∀ op ∈ ops, OpOK K op) → KeyInv K (runOps cfg st ops) := by
  intro ops
  induction ops with
  | nil => intro st hinv _; exact hinv
  | cons op rest ih =>
    intro st hinv hops
    exact ih (stepOp cfg st op)
      (keyInv_stepOp hinv hcfg (hops op (List.mem_cons_self _ _)))
      (fun x hx => hops x (List.mem_cons_of_mem _ hx))

theorem keyInv_newFormState (i : Obj) : KeyInv (keysOf i) (newFormState i) := by
  refine ⟨?_, ?_, ?_, ?_⟩
  · show keysOf (cloneObj i) = keysOf i
    exact keysOf_cloneObj i
  · show keysOf (cloneObj i) = keysOf i
    exact keysOf_cloneObj i
  · intro k hk
    rw [show (newFormState i).errors = cloneDefault (cloneObj i) Value.vNull
      from rfl, keysOf_cloneDefault, keysOf_cloneObj] at hk
    exact hk
  · intro k hk
    rw [show (newFormState i).touched =
      cloneDefault (cloneObj i) (Value.vBool false) from rfl,
      keysOf_cloneDefault, keysOf_cloneObj] at hk
    exact hk

/-! ## Lifecycle flags -/

theorem setYup_flags (st : FormState) (e : Value) :
    (setYupValidationErrors st e).state.isSubmitting = st.isSubmitting ∧
      (setYupValidationErrors st e).state.isValidating = st.isValidating := by
  rcases setYup_state_cases st e with h | ⟨fs, msgs, _, _, _, h⟩ <;>
    rw [h] <;> exact ⟨rfl, rfl⟩

theorem validateFieldSync_flags (cfg : FormConfig) (st : FormState)
    (f : String) :
    (validateFieldSync cfg st f).state.isSubmitting = st.isSubmitting ∧
      (validateFieldSync cfg st f).state.isValidating = st.isValidating := by
  cases hsch : cfg.validationSchema with
  | none =>
    simp only [validateFieldSync, hsch]
    exact setYup_flags st typeErrorValue
  | some sch =>
    simp only [validateFieldSync, hsch]
    cases hres : sch.validateSyncAt f st.values with
    | ok => exact ⟨rfl, rfl⟩
    | thrown e => exact setYup_flags st e

theorem setFieldValue_flags (cfg : FormConfig) (st : FormState) (f : String)
    (v : Value) (sv : Bool) :
    (setFieldValue cfg st f v sv).state.isSubmitting = st.isSubmitting ∧
      (setFieldValue cfg st f v sv).state.isValidating = st.isValidating := by
  simp only [setFieldValue]
  by_cases hcond : (sv && cfg.validationSchema.isSome) = true
  · rw [if_pos hcond]
    exact validateFieldSync_flags cfg { st with values := setKey st.values f v } f
  · rw [if_neg hcond]
    exact ⟨rfl, rfl⟩

theorem runHelpers_flags (cfg : FormConfig) :
    ∀ (calls : List HelperCall) (st : FormState),
    (∀ st', runHelpers cfg st calls = .ok st' →
      st'.isSubmitting = st.isSubmitting ∧
        st'.isValidating = st.isValidating) ∧
      (∀ e st', runHelpers cfg st calls = .error (e, st') →
        st'.isSubmitting = st.isSubmitting ∧
          st'.isValidating = st.isValidating) := by
  intro calls
  induction calls with
  | nil =>
    intro st
    constructor
    · intro st' h
      simp only [runHelpers] at h
      cases h
      exact ⟨rfl, rfl⟩
    · intro e st' h
      simp [runHelpers] at h
  | cons c rest ih =>
    intro st
    cases c with
    | callSetFieldError f m =>
      simp only [runHelpers]
      constructor
      · intro st' h
        exact (ih (setFieldError st f m)).1 st' h
      · intro e st' h
        exact (ih (setFieldError st f m)).2 e st' h
    | callSetFieldValue f v sv =>
      simp only [runHelpers]
      have hfl := setFieldValue_flags cfg st f v sv
      cases hth : (setFieldValue cfg st f v sv).thrown with
      | some e2 =>
        constructor
        · intro st' h
          simp [hth] at h
        · intro e st' h
          simp only [hth] at h
          cases h
          exact hfl
      | none =>
        simp only [hth]
        constructor
        · intro st' h
          have := (ih (setFieldValue cfg st f v sv).state).1 st' h
          exact ⟨this.1.trans hfl.1, this.2.trans hfl.2⟩
        · intro e st' h
          have := (ih (setFieldValue cfg st f v sv).state).2 e st' h
          exact ⟨this.1.trans hfl.1, this.2.trans hfl.2⟩

/-! ## Last-write-wins accumulation -/

theorem find?_append {α : Type} (l₁ l₂ : List α) (q : α → Bool) :
    (l₁ ++ l₂).find? q =
      match l₁.find? q with
      | some x => some x
      | none => l₂.find? q := by
  induction l₁ with
  | nil => simp
  | cons a rest ih =>
    cases h : q a with
    | true => simp [List.find?, h]
    | false => simp [List.find?, h, ih]

theorem lastWins_cons (e : Value) (rest : List Value) (p : String) :
    lastWins (e :: rest) p =
      match lastWins rest p with
      | some v => some v
      | none =>
        if jsToString (getProp e "path") == p then some (getProp e "message")
        else none := by
  rw [lastWins, lastWins, List.reverse_cons, find?_append]
  cases hf : rest.reverse.find?
      (fun x => jsToString (getProp x "path") == p) with
  | some x => simp [hf]
  | none =>
    simp only [hf]
    cases hq : (jsToString (getProp e "path") == p) with
    | true => simp [List.find?, hq]
    | false => simp [List.find?, hq]

theorem lookup_accumulate_step (e : Value) (rest : List Value) (acc m : Obj)
    (hne : e ≠ .vNull ∧ e ≠ .vUndefined)
    (ih : ∀ acc m, accumulateInner rest acc = .ok m →
      ∀ p, lookupObj m p =
        match lastWins rest p with
        | some v => some v
        | none => lookupObj acc p)
    (h : accumulateInner (e :: rest) acc = .ok m) (p : String) :
    lookupObj m p =
      match lastWins (e :: rest) p with
      | some v => some v
      | none => lookupObj acc p := by
  rw [accumulate_cons_nonnull rest acc hne] at h
  rw [ih _ m h p, lastWins_cons]
  cases hlw : lastWins rest p with
  | some v => simp [hlw]
  | none =>
    simp only [hlw]
    rw [lookupObj_setKey]
    by_cases hpk : p = jsToString (getProp e "path")
    · rw [if_pos hpk]
      have hbeq : (jsToString (getProp e "path") == p) = true := by
        rw [beq_iff_eq]
        exact hpk.symm
      simp [hbeq]
    · rw [if_neg hpk]
      have hbeq : (jsToString (getProp e "path") == p) = false := by
        rw [beq_eq_false_iff_ne]
        exact fun hh => hpk hh.symm
      simp [hbeq]

theorem lookup_accumulateInner :
    ∀ (l : List Value) (acc m : Obj), accumulateInner l acc = .ok m →
    ∀ p, lookupObj m p =
      match lastWins l p with
      | some v => some v
      | none => lookupObj acc p := by
  intro l
  induction l with
  | nil =>
    intro acc m h p
    simp only [accumulateInner] at h
    cases h
    simp [lastWins]
  | cons e rest ih =>
    intro acc m h p
    cases e <;> first
      | (simp [accumulateInner] at h; done)
      | exact lookup_accumulate_step _ rest acc m
          ⟨fun hh => Value.noConfusion hh, fun hh => Value.noConfusion hh⟩
          ih h p

/-! ## Equations for the submit and single-field validation paths -/

theorem setYup_malformed (st : FormState) (fs : List (String × Value))
    (hmal : hasKey fs "path" = false ∨
      ∀ msgs, lookupObj fs "errors" ≠ some (.vArr msgs)) :
    setYupValidationErrors st (.vObj fs) =
      { state := st, logged := true, thrown := none } := by
  by_cases hp : hasKey fs "path" = true
  · rcases hmal with hmal | hmal
    · rw [hp] at hmal
      cases hmal
    · cases hlk : lookupObj fs "errors" with
      | none => simp [setYupValidationErrors, hp, hlk]
      | some w =>
        cases w with
        | vArr msgs => exact absurd hlk (hmal msgs)
        | vUndefined => simp [setYupValidationErrors, hp, hlk]
        | vNull => simp [setYupValidationErrors, hp, hlk]
        | vNaN => simp [setYupValidationErrors, hp, hlk]
        | vBool b => simp [setYupValidationErrors, hp, hlk]
        | vNum n => simp [setYupValidationErrors, hp, hlk]
        | vStr s => simp [setYupValidationErrors, hp, hlk]
        | vObj gs => simp [setYupValidationErrors, hp, hlk]
  · have hp' : hasKey fs "path" = false := by
      revert hp
      cases hasKey fs "path" <;> simp
    simp [setYupValidationErrors, hp']

theorem setYup_wellformed (st : FormState) (fs : List (String × Value))
    (msgs : List Value) (hp : hasKey fs "path" = true)
    (hlk : lookupObj fs "errors" = some (.vArr msgs)) :
    setYupValidationErrors st (.vObj fs) =
      { state := setFieldError st (jsToString (getProp (.vObj fs) "path"))
          (msgs.headD .vUndefined)
        logged := false, thrown := none } := by
  simp [setYupValidationErrors, hp, hlk]

theorem submitCore_inner_failure (cfg : FormConfig) (spec : OnSubmitSpec)
    (env : FormState → FormState) (cv : Obj) (st : FormState) (sch : SchemaB)
    (e : Value) (l : List Value) (m : Obj)
    (hsch : cfg.validationSchema = some sch)
    (hthrow : sch.validateAll cv = .thrown e)
    (hinner : getProp e "inner" = .vArr l)
    (hacc : accumulateInner l [] = .ok m) :
    submitCore cfg spec env cv st =
      { state := { env { st with isValidating := true } with
            errors := m, isValidating := false }
        trace := [.validateCall cv]
        thrown := none } := by
  simp only [submitCore, hsch, hthrow, hinner, hacc]
  rfl

theorem submitCore_isValidating (cfg : FormConfig) (spec : OnSubmitSpec)
    (env : FormState → FormState) (cv : Obj) (st : FormState) (sch : SchemaB)
    (hsch : cfg.validationSchema = some sch) :
    (submitCore cfg spec env cv st).state.isValidating = false := by
  cases hres : sch.validateAll cv with
  | ok =>
    simp only [submitCore, hsch, hres]
    cases hrh : runHelpers cfg
        { env { st with isValidating := true } with isValidating := false }
        (spec.script cv) with
    | error em =>
      simp only [hrh]
      obtain ⟨e2, st2⟩ := em
      have := (runHelpers_flags cfg (spec.script cv) _).2 e2 st2 hrh
      exact this.2
    | ok st3 =>
      simp only [hrh]
      have := (runHelpers_flags cfg (spec.script cv) _).1 st3 hrh
      exact this.2
  | thrown e =>
    simp only [submitCore, hsch, hres]
    by_cases htr : truthy (getProp e "inner") = true
    · rw [if_pos htr]
      cases hin : getProp e "inner" with
      | vArr l =>
        cases hacc : accumulateInner l [] with
        | ok errMap => simp [hacc]
        | error te => simp [hacc]
      | vUndefined => rfl
      | vNull => rfl
      | vNaN => rfl
      | vBool b => rfl
      | vNum n => rfl
      | vStr s => rfl
      | vObj gs => rfl
    · rw [if_neg htr]

/-! ## Claim theorems -/

/-- C1: for every configured validation schema and every whole-object
validation failure raised during `handleSubmit` (a thrown value whose
`inner` is an array whose accumulation succeeds), the submit
short-circuits: the errors store is set to exactly the map built from
every individual failure's `path` mapped to its `message` with last
write winning for duplicate paths, `onSubmit` is never invoked in that
run, and nothing is re-thrown. -/
theorem handleSubmit_validation_failure_short_circuits
    (cfg : FormConfig) (ev : EventCaps) (env : FormState → FormState)
    (st : FormState) (spec : OnSubmitSpec) (sch : SchemaB) (e : Value)
    (l : List Value) (m : Obj)
    (hos : cfg.onSubmit = some spec)
    (hsch : cfg.validationSchema = some sch)
    (hthrow : sch.validateAll st.values = .thrown e)
    (hinner : getProp e "inner" = .vArr l)
    (hacc : accumulateInner l [] = .ok m) :
    (handleSubmit cfg ev env st).state.errors = m ∧
      (∀ p, lookupObj (handleSubmit cfg ev env st).state.errors p =
        lastWins l p) ∧
      (handleSubmit cfg ev env st).trace.any TraceEv.isSubmitCall = false ∧
      (handleSubmit cfg ev env st).thrown = none := by
  have hcore := submitCore_inner_failure cfg spec env st.values
    { clearErrors st with isSubmitting := true } sch e l m hsch hthrow hinner hacc
  have herrs : (handleSubmit cfg ev env st).state.errors = m := by
    simp only [handleSubmit, hos, hcore]
  refine ⟨herrs, ?_, ?_, ?_⟩
  · intro p
    rw [herrs, lookup_accumulateInner l [] m hacc p]
    cases lastWins l p <;> simp [lookupObj]
  · obtain ⟨pd, sp⟩ := ev
    simp only [handleSubmit, hos, hcore]
    cases pd <;> cases sp <;> rfl
  · simp only [handleSubmit, hos, hcore]

/-- C1 witness: a concrete failing whole-object validation with two inner
failures on the same path; the error store holds the second (last)
message, `onSubmit` is never called, nothing is thrown. -/
theorem handleSubmit_validation_failure_short_circuits_witness :
    (handleSubmit
      { initialValues := .vObj [("name", Value.vStr "")]
        onSubmit := some { script := fun _ => [], throws := fun _ => none }
        validationSchema := some
          { validateAll := fun _ => .thrown (.vObj [("inner", .vArr
              [.vObj [("path", Value.vStr "name"), ("message", Value.vStr "first")],
               .vObj [("path", Value.vStr "name"), ("message", Value.vStr "second")]])])
            validateAt := fun _ _ => .ok
            validateSyncAt := fun _ _ => .ok } }
      ⟨false, false⟩ (fun s => s)
      (newFormState [("name", Value.vStr "")])).state.errors =
        [("name", Value.vStr "second")] ∧
      (handleSubmit
        { initialValues := .vObj [("name", Value.vStr "")]
          onSubmit := some { script := fun _ => [], throws := fun _ => none }
          validationSchema := some
            { validateAll := fun _ => .thrown (.vObj [("inner", .vArr
                [.vObj [("path", Value.vStr "name"), ("message", Value.vStr "first")],
                 .vObj [("path", Value.vStr "name"), ("message", Value.vStr "second")]])])
              validateAt := fun _ _ => .ok
              validateSyncAt := fun _ _ => .ok } }
        ⟨false, false⟩ (fun s => s)
        (newFormState [("name", Value.vStr "")])).trace.any
          TraceEv.isSubmitCall = false :=
  ⟨(handleSubmit_validation_failure_short_circuits
      { initialValues := .vObj [("name", Value.vStr "")]
        onSubmit := some { script := fun _ => [], throws := fun _ => none }
        validationSchema := some
          { validateAll := fun _ => .thrown (.vObj [("inner", .vArr
              [.vObj [("path", Value.vStr "name"), ("message", Value.vStr "first")],
               .vObj [("path", Value.vStr "name"), ("message", Value.vStr "second")]])])
            validateAt := fun _ _ => .ok
            validateSyncAt := fun _ _ => .ok } }
      ⟨false, false⟩ (fun s => s) (newFormState [("name", Value.vStr "")])
      { script := fun _ => [], throws := fun _ => none }
      { validateAll := fun _ => .thrown (.vObj [("inner", .vArr
          [.vObj [("path", Value.vStr "name"), ("message", Value.vStr "first")],
           .vObj [("path", Value.vStr "name"), ("message", Value.vStr "second")]])])
        validateAt := fun _ _ => .ok
        validateSyncAt := fun _ _ => .ok }
      (.vObj [("inner", .vArr
        [.vObj [("path", Value.vStr "name"), ("message", Value.vStr "first")],
         .vObj [("path", Value.vStr "name"), ("message", Value.vStr "second")]])])
      [.vObj [("path", Value.vStr "name"), ("message", Value.vStr "first")],
       .vObj [("path", Value.vStr "name"), ("message", Value.vStr "second")]]
      [("name", Value.vStr "second")]
      rfl rfl rfl rfl rfl).1,
    (handleSubmit_validation_failure_short_circuits
      { initialValues := .vObj [("name", Value.vStr "")]
        onSubmit := some { script := fun _ => [], throws := fun _ => none }
        validationSchema := some
          { validateAll := fun _ => .thrown (.vObj [("inner", .vArr
              [.vObj [("path", Value.vStr "name"), ("message", Value.vStr "first")],
               .vObj [("path", Value.vStr "name"), ("message", Value.vStr "second")]])])
            validateAt := fun _ _ => .ok
            validateSyncAt := fun _ _ => .ok } }
      ⟨false, false⟩ (fun s => s) (newFormState [("name", Value.vStr "")])
      { script := fun _ => [], throws := fun _ => none }
      { validateAll := fun _ => .thrown (.vObj [("inner", .vArr
          [.vObj [("path", Value.vStr "name"), ("message", Value.vStr "first")],
           .vObj [("path", Value.vStr "name"), ("message", Value.vStr "second")]])])
        validateAt := fun _ _ => .ok
        validateSyncAt := fun _ _ => .ok }
      (.vObj [("inner", .vArr
        [.vObj [("path", Value.vStr "name"), ("message", Value.vStr "first")],
         .vObj [("path", Value.vStr "name"), ("message", Value.vStr "second")]])])
      [.vObj [("path", Value.vStr "name"), ("message", Value.vStr "first")],
       .vObj [("path", Value.vStr "name"), ("message", Value.vStr "second")]]
      [("name", Value.vStr "second")]
      rfl rfl rfl rfl rfl).2.2.1⟩

/-- C2: `handleSubmit` lowers `isSubmitting` on every exit path —
success, validation short-circuit, a non-validation throw from the
schema, or a throw from `onSubmit` — and whenever the whole-object
validation ran (a `validateCall` is in the trace), `isValidating` ends
`false` regardless of the validation outcome. -/
theorem handleSubmit_clears_lifecycle_flags (cfg : FormConfig)
    (ev : EventCaps) (env : FormState → FormState) (st : FormState) :
    (handleSubmit cfg ev env st).state.isSubmitting = false ∧
      ((handleSubmit cfg ev env st).trace.any TraceEv.isValidateCall = true →
        (handleSubmit cfg ev env st).state.isValidating = false) := by
  constructor
  · cases hos : cfg.onSubmit with
    | none => simp [handleSubmit, hos]
    | some spec => simp [handleSubmit, hos]
  · intro htr
    cases hos : cfg.onSubmit with
    | none => simp [handleSubmit, hos] at htr
    | some spec =>
      cases hsch : cfg.validationSchema with
      | some sch =>
        simp only [handleSubmit, hos]
        exact submitCore_isValidating cfg spec env st.values _ sch hsch
      | none =>
        exfalso
        obtain ⟨pd, sp⟩ := ev
        simp only [handleSubmit, hos, submitCore, hsch] at htr
        cases hrh : runHelpers cfg { clearErrors st with isSubmitting := true }
            (spec.script st.values) with
        | error em =>
          cases pd <;> cases sp <;>
            simp [hrh, TraceEv.isValidateCall] at htr
        | ok st3 =>
          cases pd <;> cases sp <;>
            simp [hrh, TraceEv.isValidateCall] at htr

/-- C2 witness: a passing whole-object validation at a concrete config —
the trace records the validation call, and both flags end `false`. -/
theorem handleSubmit_clears_lifecycle_flags_witness :
    (handleSubmit
      { initialValues := .vObj [("name", Value.vStr "")]
        onSubmit := some { script := fun _ => [], throws := fun _ => none }
        validationSchema := some
          { validateAll := fun _ => .ok
            validateAt := fun _ _ => .ok
            validateSyncAt := fun _ _ => .ok } }
      ⟨true, true⟩ (fun s => s)
      (newFormState [("name", Value.vStr "")])).state.isSubmitting = false ∧
      (handleSubmit
        { initialValues := .vObj [("name", Value.vStr "")]
          onSubmit := some { script := fun _ => [], throws := fun _ => none }
          validationSchema := some
            { validateAll := fun _ => .ok
              validateAt := fun _ _ => .ok
              validateSyncAt := fun _ _ => .ok } }
        ⟨true, true⟩ (fun s => s)
        (newFormState [("name", Value.vStr "")])).state.isValidating = false :=
  ⟨(handleSubmit_clears_lifecycle_flags _ _ _ _).1,
    (handleSubmit_clears_lifecycle_flags _ _ _ _).2 rfl⟩

/-- C3 counterexample: at runtime `setFieldError` with a field outside
the creation-time key set synthesizes that key — the spread
`{...currentState, [field]: message}` appends it — so the errors key set
escapes the creation-time key set `["a"]`. -/
theorem setFieldError_synthesizes_foreign_key :
    keysOf (setFieldError (newFormState [("a", Value.vNum 1)]) "b"
      (Value.vStr "boom")).errors = ["a", "b"] ∧
      keysOf (newFormState [("a", Value.vNum 1)]).values = ["a"] ∧
      ¬ (∀ k ∈ keysOf (setFieldError (newFormState [("a", Value.vNum 1)]) "b"
          (Value.vStr "boom")).errors,
          k ∈ keysOf (newFormState [("a", Value.vNum 1)]).values) := by
  refine ⟨rfl, rfl, ?_⟩
  intro hall
  have hb := hall "b" (by decide)
  exact absurd hb (by decide)

/-- C3 amended: provided every public operation targets fields inside the
creation-time key set (`OpOK`), the schema reports only paths inside it
and the submit callback only touches fields inside it (`cfgOK`), the
values and initial-values key sets stay exactly the creation-time key
set and the errors and touched key sets stay subsets of it, over every
operation sequence. -/
theorem runOps_key_sets_invariant (i : Obj) (cfg : FormConfig)
    (ops : List Op) (hcfg : cfgOK (keysOf i) cfg)
    (hops : ∀ op ∈ ops, OpOK (keysOf i) op) :
    KeyInv (keysOf i) (runOps cfg (newFormState i) ops) :=
  keyInv_runOps hcfg ops (newFormState i) (keyInv_newFormState i) hops

/-- C3 witness: a concrete two-operation run whose targets stay inside
the creation key set keeps all four key sets inside it. -/
theorem runOps_key_sets_invariant_witness :
    KeyInv (keysOf [("a", Value.vNum 1)])
      (runOps
        { initialValues := .vObj [("a", Value.vNum 1)]
          onSubmit := none
          validationSchema := none }
        (newFormState [("a", Value.vNum 1)])
        [Op.opSetFieldError "a" (Value.vStr "x"), Op.opReset]) :=
  runOps_key_sets_invariant [("a", Value.vNum 1)]
    { initialValues := .vObj [("a", Value.vNum 1)]
      onSubmit := none
      validationSchema := none }
    [Op.opSetFieldError "a" (Value.vStr "x"), Op.opReset]
    ⟨fun _ h => Option.noConfusion h, fun _ h => Option.noConfusion h⟩
    (fun op hop => by
      cases hop with
      | head =>
        exact show ("a" : String) ∈ keysOf [("a", Value.vNum 1)] by decide
      | tail _ h2 =>
        cases h2 with
        | head => exact trivial
        | tail _ h3 => cases h3)

/-- C7 counterexample: `handleSubmit` does not snapshot the values by
value — `const currentValues = get(values)` keeps the values store's
object itself.  For the container over `c7h0`, the captured address is
the values store's address, the capture reads `"typed"` at entry, and an
in-place write to the `name` property during the validation await (the
two-way-binding write `bind:value` that the library's own doc comments
recommend compiles to) is visible through the captured reference:
`onSubmit` would receive `"changed"`, not the entry-time `"typed"`. -/
theorem handleSubmit_snapshot_is_by_reference :
    captureCurrentValues (newFormH c7h0 0) = (newFormH c7h0 0).valsAddr ∧
      readPath (newFormH c7h0 0).heap
        (.jref (captureCurrentValues (newFormH c7h0 0))) ["name"] =
        some "typed" ∧
      readPath (setFieldAt (newFormH c7h0 0).heap (newFormH c7h0 0).valsAddr
          "name" (.jprim "changed"))
        (.jref (captureCurrentValues (newFormH c7h0 0))) ["name"] =
        some "changed" ∧
      (some "changed" : Option JPrim) ≠ some "typed" := by
  refine ⟨?_, ?_, ?_, ?_⟩ <;> decide

/-- C7 amended: `handleSubmit` captures the current values object by
reference when it starts (`get(values)` — the store's object itself, not
a copy); every update made through the library's own API replaces the
values object rather than mutating it, so such updates during the
validation await leave the captured object unchanged, and with passing
validation (or no schema) `handleSubmit` invokes `onSubmit` exactly once
with that captured entry-time object, after calling `preventDefault` and
`stopPropagation` when those capabilities are present: the trace is
exactly "capability calls, then the validation call when a schema
exists, then one `onSubmit` invocation carrying the entry values", for
every replacement-style interference `env`. -/
theorem handleSubmit_invokes_onSubmit_once_with_snapshot :
    (∀ (cfg : FormConfig) (ev : EventCaps) (env : FormState → FormState)
      (st : FormState) (spec : OnSubmitSpec),
      cfg.onSubmit = some spec →
      (cfg.validationSchema = none ∨
        ∃ sch, cfg.validationSchema = some sch ∧
          sch.validateAll st.values = .ok) →
      (handleSubmit cfg ev env st).trace =
        (if ev.hasPreventDefault then [TraceEv.preventDefault] else []) ++
          (if ev.hasStopPropagation then [TraceEv.stopPropagation] else []) ++
          (match cfg.validationSchema with
           | some _ => [TraceEv.validateCall st.values,
               TraceEv.submitCall st.values]
           | none => [TraceEv.submitCall st.values])) ∧
      (∀ fm : FormH, captureCurrentValues fm = fm.valsAddr) ∧
      (∀ (fm : FormH) (k : String) (v : JVal) (p : List String),
        heapClosedB fm.heap = true →
        jvalBounded fm.heap.length (.jref fm.valsAddr) = true →
        readPath (setFieldValueH fm k v).heap
          (.jref (captureCurrentValues fm)) p =
          readPath fm.heap (.jref (captureCurrentValues fm)) p) := by
  refine ⟨?_, fun _ => rfl, ?_⟩
  · intro cfg ev env st spec hos hval
    rcases hval with hsch | ⟨sch, hsch, hok⟩
    · simp only [handleSubmit, hos, submitCore, hsch]
      cases hrh : runHelpers cfg { clearErrors st with isSubmitting := true }
          (spec.script st.values) with
      | error em => simp [hrh, List.append_assoc]
      | ok st3 => simp [hrh, List.append_assoc]
    · simp only [handleSubmit, hos, submitCore, hsch, hok]
      cases hrh : runHelpers cfg
          { env { { clearErrors st with isSubmitting := true } with
              isValidating := true } with isValidating := false }
          (spec.script st.values) with
      | error em => simp [hrh, List.append_assoc]
      | ok st3 => simp [hrh, List.append_assoc]
  · intro fm k v p hcl hb
    exact readPath_append fm.heap _ hcl p _ hb

/-- C7 witness: a concrete run with both event capabilities present, a
passing schema, and event-loop interference that replaces the `name`
value during validation — the trace still calls `preventDefault` and
`stopPropagation` first and passes the entry values to `onSubmit`
exactly once; and at the heap level a replacement-style update during
the await leaves the captured values object unchanged. -/
theorem handleSubmit_invokes_onSubmit_once_with_snapshot_witness :
    (handleSubmit
      { initialValues := .vObj [("name", Value.vStr "typed")]
        onSubmit := some { script := fun _ => [], throws := fun _ => none }
        validationSchema := some
          { validateAll := fun _ => .ok
            validateAt := fun _ _ => .ok
            validateSyncAt := fun _ _ => .ok } }
      ⟨true, true⟩
      (fun s => { s with values := setKey s.values "name" (Value.vStr "changed") })
      (newFormState [("name", Value.vStr "typed")])).trace =
      [TraceEv.preventDefault, TraceEv.stopPropagation,
        TraceEv.validateCall [("name", Value.vStr "typed")],
        TraceEv.submitCall [("name", Value.vStr "typed")]] ∧
      heapClosedB (newFormH c7h0 0).heap = true ∧
      readPath (setFieldValueH (newFormH c7h0 0) "name" (.jprim "replaced")).heap
        (.jref (captureCurrentValues (newFormH c7h0 0))) ["name"] =
        readPath (newFormH c7h0 0).heap
          (.jref (captureCurrentValues (newFormH c7h0 0))) ["name"] := by
  refine ⟨?_, by decide, ?_⟩
  · have h := handleSubmit_invokes_onSubmit_once_with_snapshot.1
      { initialValues := .vObj [("name", Value.vStr "typed")]
        onSubmit := some { script := fun _ => [], throws := fun _ => none }
        validationSchema := some
          { validateAll := fun _ => .ok
            validateAt := fun _ _ => .ok
            validateSyncAt := fun _ _ => .ok } }
      ⟨true, true⟩
      (fun s => { s with values := setKey s.values "name" (Value.vStr "changed") })
      (newFormState [("name", Value.vStr "typed")])
      { script := fun _ => [], throws := fun _ => none }
      rfl
      (Or.inr ⟨{ validateAll := fun _ => .ok
                 validateAt := fun _ _ => .ok
                 validateSyncAt := fun _ _ => .ok }, rfl, rfl⟩)
    exact h.trans rfl
  · exact handleSubmit_invokes_onSubmit_once_with_snapshot.2.2
      (newFormH c7h0 0) "name" (.jprim "replaced") ["name"]
      (by decide) (by decide)

/-- C8: `newForm` fails synchronously with a `TypeError` when the config
argument is absent or `config.initialValues` is falsy, and no container
is produced in those cases. -/
theorem newForm_rejects_missing_config :
    newForm none = Except.error "You must provide a config to newForm." ∧
      ∀ cfg : FormConfig, truthy cfg.initialValues = false →
        newForm (some cfg) = Except.error
          "You must specify initialValues with an object to FormConfig." := by
  constructor
  · rfl
  · intro cfg h
    simp [newForm, h]

/-- C8 witness: a `null` initial-values object is falsy, and `newForm`
rejects it with the `initialValues` error. -/
theorem newForm_rejects_missing_config_witness :
    truthy Value.vNull = false ∧
      newForm (some { initialValues := Value.vNull, onSubmit := none
                      validationSchema := none }) = Except.error
        "You must specify initialValues with an object to FormConfig." :=
  ⟨rfl, newForm_rejects_missing_config.2
    { initialValues := Value.vNull, onSubmit := none,
      validationSchema := none } rfl⟩

/-- C4 counterexample: for `I = {a: {b: {c: "1"}}}` (heap `c4h0`, `I` at
address 0), the values snapshot after create reads `"1"` at `a.b.c`, but
the caller's depth-2 mutation `I.a.b.c = "2"` (an in-place write to cell
2, which `I` still reaches through `a` then `b`) changes the container's
stored values to `"2"`: `clone` copies only one level deep. -/
theorem create_snapshot_leaks_depth_two_mutation :
    readPath (newFormH c4h0 0).heap (.jref (newFormH c4h0 0).valsAddr)
      ["a", "b", "c"] = some "1" ∧
      readPath (setFieldAt (newFormH c4h0 0).heap 2 "c" (.jprim "2"))
        (.jref 0) ["a", "b", "c"] = some "2" ∧
      readPath (setFieldAt (newFormH c4h0 0).heap 2 "c" (.jprim "2"))
        (.jref (newFormH c4h0 0).valsAddr) ["a", "b", "c"] = some "2" ∧
      (some "2" : Option JPrim) ≠ some "1" := by
  refine ⟨?_, ?_, ?_, ?_⟩ <;> decide

/-- C4 amended: the values snapshot right after create agrees with `I`
at every read path (observational deep-equality, for any closed heap and
object `I`); but because `clone` copies only one level deep, a later
mutation of `I` at depth two — inside an object nested below a top-level
field — can change the container's stored values, while replacing a
top-level field of `I` leaves them unchanged (both shown on the nested
example). -/
theorem create_copies_one_level_deep :
    (∀ (h : Heap) (a : Nat) (fs : List (String × JVal)),
      heapClosedB h = true → h[a]? = some (.oCell fs) →
      ∀ p, readPath (newFormH h a).heap (.jref (newFormH h a).valsAddr) p =
        readPath h (.jref a) p) ∧
      readPath (setFieldAt (newFormH c4h0 0).heap 2 "c" (.jprim "2"))
        (.jref (newFormH c4h0 0).valsAddr) ["a", "b", "c"] = some "2" ∧
      readPath (setFieldAt (newFormH c4h0 0).heap 0 "a" (.jprim "x"))
        (.jref (newFormH c4h0 0).valsAddr) ["a", "b", "c"] = some "1" := by
  refine ⟨?_, by decide, by decide⟩
  intro h a fs hcl ha p
  exact newFormH_readPath h a hcl fs ha p

/-- C4 witness: the deep-equality of the create-time snapshot, applied to
the concrete nested heap. -/
theorem create_copies_one_level_deep_witness :
    heapClosedB c4h0 = true ∧
      readPath (newFormH c4h0 0).heap (.jref (newFormH c4h0 0).valsAddr)
        ["a", "b", "c"] = readPath c4h0 (.jref 0) ["a", "b", "c"] :=
  ⟨by decide,
    create_copies_one_level_deep.1 c4h0 0 [("a", JVal.jref 1)] (by decide)
      (by decide) ["a", "b", "c"]⟩

/-- C5 counterexample: `reset()` stores the initial-values object itself
(`values.set(get(__initialValues))`), not a copy: after reset the two
stores hold the same address, and an in-place write through the values
store is visible through the initial-values store. -/
theorem reset_aliases_initial_values :
    (resetH (newFormH c5h0 0)).valsAddr = (resetH (newFormH c5h0 0)).initAddr ∧
      readPath (resetH (newFormH c5h0 0)).heap
        (.jref (resetH (newFormH c5h0 0)).initAddr) ["name"] = some "a" ∧
      readPath (setFieldAt (resetH (newFormH c5h0 0)).heap
          (resetH (newFormH c5h0 0)).valsAddr "name" (.jprim "b"))
        (.jref (resetH (newFormH c5h0 0)).initAddr) ["name"] = some "b" ∧
      (some "b" : Option JPrim) ≠ some "a" := by
  refine ⟨?_, ?_, ?_, ?_⟩ <;> decide

/-- C5 amended: `reset()` overwrites the current values with the
initial-values snapshot object itself (the same reference — an alias, not
a copy; value-equal to the snapshot) and leaves the errors map, the
touched map, `isSubmitting` and `isValidating` unchanged. -/
theorem reset_overwrites_values_only :
    (∀ st : FormState,
      (reset st).values = st.initialValues ∧
        (reset st).initialValues = st.initialValues ∧
        (reset st).errors = st.errors ∧
        (reset st).touched = st.touched ∧
        (reset st).isSubmitting = st.isSubmitting ∧
        (reset st).isValidating = st.isValidating) ∧
      ∀ fm : FormH, (resetH fm).valsAddr = fm.initAddr ∧
        (resetH fm).initAddr = fm.initAddr ∧ (resetH fm).heap = fm.heap :=
  ⟨fun _ => ⟨rfl, rfl, rfl, rfl, rfl, rfl⟩, fun _ => ⟨rfl, rfl, rfl⟩⟩

/-- C6: the repository's test suite expects `getInputValue` on a `file`
input with two selected files to return the ordered file list, but the
`getInputValue` in `src/index.ts` has no `file` branch: at the failing
input it falls through to the raw `value` string and returns no sequence
at all, while the spec-modelled helper returns the file list. -/
theorem getInputValue_file_input_returns_raw_value :
    getInputValue fileInputEx = Value.vStr "C:\\fakepath\\file1.txt" ∧
      isArrV (getInputValue fileInputEx) = false ∧
      fileInputEx.files.length = 2 ∧
      getInputValueSpec fileInputEx = Sum.inr fileInputEx.files :=
  ⟨rfl, rfl, rfl, rfl⟩

/-- C9 counterexample: a thrown validation error with a `path` and an
*empty* `errors` array lacks "a path together with a non-empty errors
list", yet `validateField` does update the store — the code only checks
`Array.isArray(error.errors)`, so `errors[0]` is `undefined` and the
field's previous error message is overwritten. -/
theorem validateField_empty_errors_array_updates_store :
    (validateField
      { initialValues := .vObj [("name", Value.vStr "")]
        onSubmit := none
        validationSchema := some
          { validateAll := fun _ => .ok
            validateAt := fun _ _ => .thrown (.vObj
              [("path", Value.vStr "name"), ("errors", Value.vArr [])])
            validateSyncAt := fun _ _ => .ok } }
      { initialValues := [("name", Value.vStr "")]
        values := [("name", Value.vStr "")]
        errors := [("name", Value.vStr "old")]
        touched := [("name", Value.vBool false)]
        isSubmitting := false
        isValidating := false }
      "name").state.errors = [("name", Value.vUndefined)] ∧
      Value.vUndefined ≠ Value.vStr "old" :=
  ⟨rfl, fun h => Value.noConfusion h⟩

/-- C9 amended: a thrown *object* lacking a `path` key, or whose `errors`
property is not an array, is logged and otherwise ignored by
`validateField`/`validateFieldSync` (no store update, nothing re-thrown);
but a thrown object with a `path` and an `errors` array — even an empty
one — does update the store, setting the field error at the error's path
to `errors[0]` (`undefined` when the array is empty). -/
theorem validateField_error_shape_policy
    (cfg : FormConfig) (st : FormState) (f : String) (sch : SchemaB)
    (hsch : cfg.validationSchema = some sch) :
    (∀ fs, sch.validateAt f st.values = .thrown (.vObj fs) →
      (hasKey fs "path" = false ∨
        ∀ msgs, lookupObj fs "errors" ≠ some (.vArr msgs)) →
      validateField cfg st f =
        { state := st, logged := true, thrown := none }) ∧
      (∀ fs, sch.validateSyncAt f st.values = .thrown (.vObj fs) →
        (hasKey fs "path" = false ∨
          ∀ msgs, lookupObj fs "errors" ≠ some (.vArr msgs)) →
        validateFieldSync cfg st f =
          { state := st, logged := true, thrown := none }) ∧
      (∀ fs, sch.validateAt f st.values = .thrown (.vObj fs) →
        hasKey fs "path" = true →
        lookupObj fs "errors" = some (.vArr []) →
        validateField cfg st f =
          { state := setFieldError st (jsToString (getProp (.vObj fs) "path"))
              .vUndefined
            logged := false, thrown := none }) := by
  refine ⟨?_, ?_, ?_⟩
  · intro fs hat hmal
    simp only [validateField, hsch, hat]
    exact setYup_malformed st fs hmal
  · intro fs hat hmal
    simp only [validateFieldSync, hsch, hat]
    exact setYup_malformed st fs hmal
  · intro fs hat hp hlk
    simp only [validateField, hsch, hat]
    exact setYup_wellformed st fs [] hp hlk

/-- C9 witness: a thrown object `{reason: "boom"}` with no `path` key is
logged and leaves the container state untouched. -/
theorem validateField_error_shape_policy_witness :
    validateField
      { initialValues := .vObj [("name", Value.vStr "")]
        onSubmit := none
        validationSchema := some
          { validateAll := fun _ => .ok
            validateAt := fun _ _ => .thrown (.vObj
              [("reason", Value.vStr "boom")])
            validateSyncAt := fun _ _ => .ok } }
      (newFormState [("name", Value.vStr "")]) "name" =
      { state := newFormState [("name", Value.vStr "")]
        logged := true, thrown := none } :=
  (validateField_error_shape_policy
    { initialValues := .vObj [("name", Value.vStr "")]
      onSubmit := none
      validationSchema := some
        { validateAll := fun _ => .ok
          validateAt := fun _ _ => .thrown (.vObj
            [("reason", Value.vStr "boom")])
          validateSyncAt := fun _ _ => .ok } }
    (newFormState [("name", Value.vStr "")]) "name"
    { validateAll := fun _ => .ok
      validateAt := fun _ _ => .thrown (.vObj [("reason", Value.vStr "boom")])
      validateSyncAt := fun _ _ => .ok }
    rfl).1 [("reason", Value.vStr "boom")] rfl (Or.inl (by decide))

/-- C10: with no `validationSchema` configured, `validateField` and
`validateFieldSync` never throw to the caller and leave the whole
container state unchanged — the internal `TypeError` from accessing
`validateAt` on `undefined` lands in the same logged-and-ignored catch
path as malformed validation errors. -/
theorem validateField_no_schema_is_noop (cfg : FormConfig) (st : FormState)
    (f : String) (hsch : cfg.validationSchema = none) :
    validateField cfg st f = { state := st, logged := true, thrown := none } ∧
      validateFieldSync cfg st f =
        { state := st, logged := true, thrown := none } := by
  constructor
  · simp only [validateField, hsch]
    exact setYup_malformed st
      [("name", Value.vStr "TypeError"), ("message", Value.vStr "runtime TypeError")]
      (Or.inl (by decide))
  · simp only [validateFieldSync, hsch]
    exact setYup_malformed st
      [("name", Value.vStr "TypeError"), ("message", Value.vStr "runtime TypeError")]
      (Or.inl (by decide))

/-- C10 witness: a schemaless container validates a field without any
state change or exception. -/
theorem validateField_no_schema_is_noop_witness :
    validateField
      { initialValues := .vObj [("a", Value.vNum 1)]
        onSubmit := none, validationSchema := none }
      (newFormState [("a", Value.vNum 1)]) "a" =
      { state := newFormState [("a", Value.vNum 1)]
        logged := true, thrown := none } :=
  (validateField_no_schema_is_noop
    { initialValues := .vObj [("a", Value.vNum 1)]
      onSubmit := none, validationSchema := none }
    (newFormState [("a", Value.vNum 1)]) "a" rfl).1
